import Mathlib

/-!
Shallow embedding of `dns/generate_dns_snippets.py` from the
`operations-software-netbox-extras` repository: the DNS record model
(`RecordBase`, `ForwardRecord`, `ReverseRecord`), hostname/zone splitting
(`Records._split_dns_name`), reverse-record derivation
(`ForwardRecord.get_reverse`), record generation
(`Records._generate_address_records`, `Records.generate`), snapshot
collection (`Netbox.collect`, `Netbox._collect_device`) and the
change-delta check (`validate_delta`), together with proofs about them.

Machine integers are modelled as `Nat`; fallible Python code (uncaught
`StopIteration` / `KeyError`) is modelled with `Except`; calls to the
`logging` module are modelled as an explicit list of emitted log entries.
-/

namespace DnsSnippets

/-- Log levels of Python's `logging` module, as used by the script. -/
inductive LogLevel where
  | debug
  | info
  | warning
  | error
deriving DecidableEq

/-- A log call: the level plus the unformatted message template. -/
abbrev LogEntry := LogLevel × String

/-- Python exceptions that the modelled code can raise. -/
inductive PyError where
  | stopIteration
  | keyError
deriving DecidableEq

/-! ### String helpers (Python `str` operations used by the script) -/

/-- Characters stripped by Python's `str.strip()` (ASCII whitespace; the
additional unicode spaces Python strips cannot occur in Netbox DNS names). -/
def isPySpace (c : Char) : Bool :=
  c = ' ' || c = '\t' || c = '\n' || c = '\r' || c = Char.ofNat 11 || c = Char.ofNat 12

/-- Python's `str.strip()`. -/
def pyStrip (s : String) : String :=
  String.mk (((s.data.dropWhile isPySpace).reverse.dropWhile isPySpace).reverse)

/-- Helper for `splitDots`: the accumulator holds the current label reversed. -/
def splitDotsAux : List Char → List Char → List (List Char)
  | [], acc => [acc.reverse]
  | c :: cs, acc => if c = '.' then acc.reverse :: splitDotsAux cs [] else splitDotsAux cs (c :: acc)

/-- Python's `s.split('.')`. -/
def splitDots (s : String) : List String :=
  (splitDotsAux s.data []).map String.mk

/-- Python's `'.'.join(l)`. -/
def joinDots : List String → String
  | [] => ""
  | [s] => s
  | s :: rest => s ++ "." ++ joinDots rest

/-- Python's `s.endswith(t)`. -/
def strEndsWith (s t : String) : Bool := t.data.isSuffixOf s.data

/-- Python's `str.lower()` (ASCII case only, which covers Netbox names/tags). -/
def strToLower (s : String) : String := String.mk (s.data.map Char.toLower)

/-- Python's `s.replace('/', '-')`, specialised to the single-character
pattern and replacement the script uses. -/
def replaceSlashDash (s : String) : String :=
  String.mk (s.data.map (fun c => if c = '/' then '-' else c))

/-- Python list slice `l[:-k]` for `k ≥ 0` (note that `l[:-0] = l[:0] = []`). -/
def pySliceUpToNeg (l : List String) (k : Nat) : List String :=
  if k = 0 then [] else l.take (l.length - k)

/-- Python list slice `l[-k:]` for `k ≥ 0` (note that `l[-0:] = l[0:] = l`). -/
def pySliceFromNeg (l : List String) (k : Nat) : List String :=
  if k = 0 then l else l.drop (l.length - k)

/-! ### IP addresses, interfaces and prefixes -/

/-- An IP address: the version tag plus the integer value of the address. -/
inductive IPAddr where
  | v4 (a : Nat)
  | v6 (a : Nat)
deriving DecidableEq

/-- Version test, as used by `ip.version == 6` and by `__contains__`. -/
def IPAddr.isV4 : IPAddr → Bool
  | .v4 _ => true
  | .v6 _ => false

/-- The integer value of the address (`ip._ip`). -/
def IPAddr.val : IPAddr → Nat
  | .v4 a => a
  | .v6 a => a

/-- The address width in bits. -/
def IPAddr.bits : IPAddr → Nat
  | .v4 _ => 32
  | .v6 _ => 128

/-- An `ipaddress.ip_interface`: the address plus its network's prefix length. -/
structure IPIntf where
  ip : IPAddr
  pfxlen : Nat
deriving DecidableEq

/-- A Netbox prefix: the `ipaddress.ip_network` key of `Netbox.prefixes`
(version, integer network address with host bits zero, prefix length) plus
the site slug carried by the prefix object (`None` when it has no site). -/
structure NBPfx where
  isV4 : Bool
  network : Nat
  pfxlen : Nat
  site : Option String
deriving DecidableEq

/-- The integer netmask for a prefix length (`network.netmask._ip`). -/
def maskOf (bits pfxlen : Nat) : Nat := 2 ^ bits - 2 ^ (bits - pfxlen)

/-- Python's `ip in network` (`_BaseNetwork.__contains__`): false on a
version mismatch, otherwise `ip & netmask == network_address`. -/
def inPfx (ip : IPAddr) (p : NBPfx) : Bool :=
  ip.isV4 == p.isV4 && (ip.val &&& maskOf ip.bits p.pfxlen) == p.network

/-- The i-th octet, counting from the least significant, of a 32-bit value. -/
def ipOctet (a i : Nat) : Nat := a / 2 ^ (8 * i) % 256

/-- The labels of `IPv4Address.reverse_pointer`: the dotted octets reversed,
then `in-addr.arpa`. -/
def ipv4RevPtrParts (a : Nat) : List String :=
  [Nat.repr (ipOctet a 0), Nat.repr (ipOctet a 1), Nat.repr (ipOctet a 2),
   Nat.repr (ipOctet a 3), "in-addr", "arpa"]

/-- The i-th hex nibble character, from the least significant, of a 128-bit
value (Python renders exploded IPv6 addresses with lowercase hex digits). -/
def ipNibbleChar (a i : Nat) : Char := Nat.digitChar (a / 16 ^ i % 16)

/-- The labels of `IPv6Address.reverse_pointer`: the 32 nibbles of the
exploded form reversed, then `ip6.arpa`. -/
def ipv6RevPtrParts (a : Nat) : List String :=
  ((List.range 32).map (fun i => String.mk [ipNibbleChar a i])) ++ ["ip6", "arpa"]

/-! ### Records -/

/-- `ForwardRecord`: a `RecordBase` (zone, hostname, parsed IP interface). -/
structure ForwardRecord where
  zone : String
  hostname : String
  intf : IPIntf
deriving DecidableEq

/-- `ReverseRecord`: a `RecordBase` plus the PTR pointer label(s). -/
structure ReverseRecord where
  zone : String
  hostname : String
  intf : IPIntf
  pointer : String
deriving DecidableEq

/-- The record's IP (`RecordBase.ip = interface.ip`). -/
def ForwardRecord.ip (r : ForwardRecord) : IPAddr := r.intf.ip

/-- The record's IP (`RecordBase.ip = interface.ip`). -/
def ReverseRecord.ip (r : ReverseRecord) : IPAddr := r.intf.ip

/-! ### Sorting of reverse records (`ReverseRecord.to_tuple`, `RecordBase.__lt__`) -/

/-- The value of a big-endian digit list in base `b`. -/
def digitsVal (b : Nat) (l : List Nat) : Nat := l.foldl (fun n d => b * n + d) 0

/-- The value of one hex digit, as parsed by Python's `int(s, 16)` (the
pointer labels fed to it are always hex digits). -/
def hexDigitVal (c : Char) : Nat :=
  if 48 ≤ c.toNat ∧ c.toNat ≤ 57 then c.toNat - 48
  else if 97 ≤ c.toNat ∧ c.toNat ≤ 102 then c.toNat - 87
  else if 65 ≤ c.toNat ∧ c.toNat ≤ 70 then c.toNat - 55
  else 0

/-- Python's `int(s, 16)` on a hex-digit string. -/
def hexVal (s : String) : Nat := digitsVal 16 (s.data.map hexDigitVal)

/-- Python list comparison on integer lists. -/
def listLtNat : List Nat → List Nat → Bool
  | [], [] => false
  | [], _ :: _ => true
  | _ :: _, [] => false
  | a :: as, b :: bs => if a < b then true else if b < a then false else listLtNat as bs

/-- Python string comparison (lexicographic on code points). -/
def charListLt : List Char → List Char → Bool
  | [], [] => false
  | [], _ :: _ => true
  | _ :: _, [] => false
  | a :: as, b :: bs => if a < b then true else if b < a then false else charListLt as bs

/-- Python's `s1 < s2` on strings. -/
def pyStrLt (s t : String) : Bool := charListLt s.data t.data

/-- `ReverseRecord.to_tuple`: `tuple([int(i, 16) for i in
self.pointer.split('.')[::-1]] + [self.hostname])`, modelled as the integer
list plus the trailing hostname. -/
def ReverseRecord.to_tuple (r : ReverseRecord) : List Nat × String :=
  (((splitDots r.pointer).reverse).map hexVal, r.hostname)

/-- `RecordBase.__lt__` on reverse records: Python tuple comparison of the
`to_tuple` values (integer labels element-wise, then the hostname; within
one reverse zone the label lists always have equal length). -/
def revLt (r1 r2 : ReverseRecord) : Bool :=
  if listLtNat r1.to_tuple.1 r2.to_tuple.1 then true
  else if listLtNat r2.to_tuple.1 r1.to_tuple.1 then false
  else pyStrLt r1.to_tuple.2 r2.to_tuple.2

/-! ### Prefix selection helpers -/

/-- One step of the stable descending insertion sort by prefix length. -/
def insertDesc (x : NBPfx) : List NBPfx → List NBPfx
  | [] => [x]
  | y :: ys => if y.pfxlen ≤ x.pfxlen then x :: y :: ys else y :: insertDesc x ys

/-- Python's `sorted(l, key=attrgetter('prefixlen'), reverse=True)` (stable). -/
def sortDescByPfxlen (l : List NBPfx) : List NBPfx := l.foldr insertDesc []

/-- Python's `min(l, key=attrgetter('prefixlen'))`: the first element with
the least prefix length (`none` on an empty list, where Python raises). -/
def pyMinByPfxlen : List NBPfx → Option NBPfx
  | [] => none
  | p :: ps => some (ps.foldl (fun acc q => if q.pfxlen < acc.pfxlen then q else acc) p)

/-! ### `ForwardRecord.get_reverse` -/

/-- RFC 2317 zone of a matched network longer than /24:
`matched_prefix.reverse_pointer.replace('/', '-')`, where the reverse
pointer of an `IPv4Network` reverses the dotted labels of `'A.B.C.D/L'`. -/
def rfc2317Zone (p : NBPfx) : String :=
  replaceSlashDash
    (joinDots [Nat.repr (ipOctet p.network 0) ++ "/" ++ Nat.repr p.pfxlen,
               Nat.repr (ipOctet p.network 1), Nat.repr (ipOctet p.network 2),
               Nat.repr (ipOctet p.network 3), "in-addr", "arpa"])

/-- Standard /24 reverse zone of a network address:
`network_address.reverse_pointer.split('.', 1)[1]`. -/
def netStd24Zone (network : Nat) : String := joinDots (ipv4RevPtrParts network).tail

/-- `ForwardRecord.get_reverse`: the reverse record for a forward record, or
`none` when no configured prefix contains the address.  The unguarded
`next(...)` of the consolidation step is modelled as `PyError.stopIteration`. -/
def ForwardRecord.get_reverse (r : ForwardRecord) (pfxs : List NBPfx) :
    Except PyError (Option ReverseRecord) :=
  let matching := pfxs.filter (fun p => inPfx r.intf.ip p)
  if matching.isEmpty then Except.ok none
  else
    match r.intf.ip with
    | IPAddr.v6 a =>
      let parts := ipv6RevPtrParts a
      Except.ok (some { zone := joinDots (parts.drop 16),
                        hostname := r.hostname ++ "." ++ r.zone,
                        intf := r.intf, pointer := joinDots (parts.take 16) })
    | IPAddr.v4 a =>
      let parts := ipv4RevPtrParts a
      let pointer := parts.headD ""
      let zone0 := joinDots parts.tail
      if 24 < r.intf.pfxlen then
        match sortDescByPfxlen matching with
        | [] => Except.ok none   -- unreachable: `matching` is nonempty
        | m0 :: rest =>
          let matchedE : Except PyError NBPfx :=
            if 29 < m0.pfxlen then
              match (m0 :: rest).find? (fun p => decide (p.pfxlen ≤ 29)) with
              | some q => Except.ok q
              | none => Except.error PyError.stopIteration
            else Except.ok m0
          match matchedE with
          | Except.error e => Except.error e
          | Except.ok matched =>
            let zone :=
              if 24 < matched.pfxlen then rfc2317Zone matched
              else if matched.pfxlen = 24 then netStd24Zone matched.network
              else zone0   -- prefix wider than /24: keep the pre-calculated /24 split
            Except.ok (some { zone := zone, hostname := r.hostname ++ "." ++ r.zone,
                              intf := r.intf, pointer := pointer })
      else
        Except.ok (some { zone := zone0, hostname := r.hostname ++ "." ++ r.zone,
                          intf := r.intf, pointer := pointer })

/-! ### Netbox data model (the attributes that the script reads) -/

/-- A physical interface (`dcim.interfaces`), with the device attributes
reached through it (`interface.device.name`, `interface.device.site.slug`). -/
structure PhysInterface where
  id : Nat
  name : String
  mgmt_only : Bool
  device_name : String
  device_site_slug : String
deriving DecidableEq

/-- A virtual interface (`virtualization.interfaces`), with the owning
virtual machine's name (`interface.virtual_machine.name`). -/
structure VirtInterface where
  id : Nat
  name : String
  virtual_machine_name : String
deriving DecidableEq

/-- The interface object written back into `address.interface` by
`Netbox.collect` after resolving the raw interface reference. -/
inductive ResolvedInterface where
  | phys (i : PhysInterface)
  | virt (i : VirtInterface)
deriving DecidableEq

/-- `interface.mgmt_only`.  Virtual interfaces have no such attribute in
pynetbox; the source only reads it on physical-server addresses, whose
interfaces are physical, so the `virt` value is never relied upon. -/
def ResolvedInterface.mgmt_only : ResolvedInterface → Bool
  | .phys i => i.mgmt_only
  | .virt _ => false

/-- `interface.device.site.slug`.  Virtual interfaces have no `device`
attribute (the source would raise); theorems about the fallback branch
only quantify over physical interfaces. -/
def ResolvedInterface.deviceSiteSlug : ResolvedInterface → String
  | .phys i => i.device_site_slug
  | .virt _ => ""

/-- A device (`dcim.devices`) with the attributes the script reads. -/
structure NBDevice where
  name : String
  device_role_slug : String
  status_value : String
  asset_tag : String
  primary_ip4 : Option Nat
  primary_ip6 : Option Nat
deriving DecidableEq

/-- A virtual machine (`virtualization.virtual_machines`). -/
structure NBVM where
  name : String
  primary_ip4 : Option Nat
  primary_ip6 : Option Nat
deriving DecidableEq

/-- A device as held in `Netbox.devices`: either physical or virtual
(`NetboxDeviceType`). -/
inductive NetboxDevice where
  | dev (d : NBDevice)
  | vm (v : NBVM)
deriving DecidableEq

/-- `device.name` (both devices and virtual machines have one). -/
def NetboxDevice.name : NetboxDevice → String
  | .dev d => d.name
  | .vm v => v.name

/-- `device.device_role.slug`.  Virtual machines expose `role`, not
`device_role` (the source would raise), but that access is guarded by
`physical`, which holds only for dcim devices in collected data. -/
def NetboxDevice.device_role_slug : NetboxDevice → String
  | .dev d => d.device_role_slug
  | .vm _ => ""

/-- `device.status.value` (read only behind the `physical` guard). -/
def NetboxDevice.status_value : NetboxDevice → String
  | .dev d => d.status_value
  | .vm _ => ""

/-- `device.asset_tag` (read only behind the `physical` guard). -/
def NetboxDevice.asset_tag : NetboxDevice → String
  | .dev d => d.asset_tag
  | .vm _ => ""

/-- `device.primary_ip4` as an address id. -/
def NetboxDevice.primary_ip4 : NetboxDevice → Option Nat
  | .dev d => d.primary_ip4
  | .vm v => v.primary_ip4

/-- `device.primary_ip6` as an address id. -/
def NetboxDevice.primary_ip6 : NetboxDevice → Option Nat
  | .dev d => d.primary_ip6
  | .vm v => v.primary_ip6

/-- An address as fetched (`ipam.ip_addresses.filter(status='active')`):
`address.address` parsed into an `IPIntf`, the DNS name, and the raw
owning-interface reference (an id, or `None` for orphaned addresses). -/
structure NBAddress where
  id : Nat
  intf : IPIntf
  dns_name : String
  interface : Option Nat
deriving DecidableEq

/-- An address after `Netbox.collect` resolved (in place) its interface
reference into the interface object. -/
structure SAddress where
  id : Nat
  intf : IPIntf
  dns_name : String
  interface : Option ResolvedInterface
deriving DecidableEq

/-- One value of the `Netbox.devices` mapping.  `device` is `none` for the
`UNASSIGNED_ADDRESSES` sentinel entry; `physical` is `none` while the
defaultdict entry exists without the `'physical'` key (it is always set
before any address is added). -/
structure DeviceEntry where
  device : Option NetboxDevice
  physical : Option Bool
  addresses : List SAddress
deriving DecidableEq

/-- `Netbox.devices`: an insertion-ordered mapping from device name to its
entry.  The address sets are modelled as lists deduplicated by address id
(Python dedups the set by object identity, and ids are unique Netbox keys). -/
abbrev Snapshot := List (String × DeviceEntry)

/-- The raw data fetched from the Netbox API by `Netbox.collect`. -/
structure NetboxData where
  addresses : List NBAddress
  physical_interfaces : List PhysInterface
  virtual_interfaces : List VirtInterface
  devices : List NBDevice
  vms : List NBVM

/-- `NO_DEVICE_NAME`, the sentinel for unassigned addresses. -/
def NO_DEVICE_NAME : String := "UNASSIGNED_ADDRESSES"

/-- `NETBOX_DEVICE_MGMT_ONLY_STATUSES`. -/
def NETBOX_DEVICE_MGMT_ONLY_STATUSES : List String := ["inventory", "decommissioning"]

/-! ### `Netbox.collect` -/

/-- Lookup of an existing entry of `Netbox.devices` (`name in self.devices`). -/
def getEntry (s : Snapshot) (name : String) : Option DeviceEntry :=
  (s.find? (fun e => e.1 == name)).map (fun e => e.2)

/-- defaultdict update: apply `f` to the named entry, creating the default
`{'addresses': set()}` entry first when the name is absent. -/
def updateEntry (s : Snapshot) (name : String) (f : DeviceEntry → DeviceEntry) : Snapshot :=
  match s with
  | [] => [(name, f { device := none, physical := none, addresses := [] })]
  | (n, e) :: rest =>
    if n = name then (n, f e) :: rest else (n, e) :: updateEntry rest name f

/-- `entry['addresses'].add(a)`: set insertion, deduplicated by address id. -/
def addAddr (e : DeviceEntry) (a : SAddress) : DeviceEntry :=
  if e.addresses.any (fun x => x.id == a.id) then e
  else { e with addresses := e.addresses ++ [a] }

/-- Resolve an address's interface reference the way the `Netbox.collect`
loop does: try `physical_interfaces[id]`, fall back to
`virtual_interfaces[id]` (whose `KeyError` is uncaught), and return the
resolved address together with the owning name and the `physical` flag. -/
def resolveAddr (nb : NetboxData) (a : NBAddress) :
    Except PyError (SAddress × String × Bool) :=
  match a.interface with
  | none => Except.ok ({ id := a.id, intf := a.intf, dns_name := a.dns_name, interface := none },
                       NO_DEVICE_NAME, false)
  | some iid =>
    match nb.physical_interfaces.find? (fun i => i.id == iid) with
    | some pi =>
      Except.ok ({ id := a.id, intf := a.intf, dns_name := a.dns_name,
                   interface := some (ResolvedInterface.phys pi) }, pi.device_name, true)
    | none =>
      match nb.virtual_interfaces.find? (fun i => i.id == iid) with
      | some vi =>
        Except.ok ({ id := a.id, intf := a.intf, dns_name := a.dns_name,
                     interface := some (ResolvedInterface.virt vi) },
                   vi.virtual_machine_name, false)
      | none => Except.error PyError.keyError

/-- One primary IP of `Netbox._collect_device`: look the id up in
`self.addresses` (`KeyError` when absent) and add the address when it has a
DNS name.  The interface is resolved eagerly here: the source stores the
shared address object, whose `interface` attribute the main `collect` loop
later reassigns in place, and that loop visits every fetched address, so a
run reaches `Records.generate` with exactly these resolved addresses (and
errors in this model only when the source run would also raise). -/
def collectPrimary (nb : NetboxData) (devName : String) (s : Snapshot) :
    Option Nat → Except PyError Snapshot
  | none => Except.ok s
  | some pid =>
    match nb.addresses.find? (fun a => a.id == pid) with
    | none => Except.error PyError.keyError
    | some a =>
      if a.dns_name = "" then Except.ok s   -- debug: primary missing a DNS name
      else
        match resolveAddr nb a with
        | Except.error e => Except.error e
        | Except.ok (ra, _, _) =>
          Except.ok (updateEntry s devName (fun e => addAddr e ra))

/-- `Netbox._collect_device`: record the device and its `physical` flag,
then force-include its primary IPv4/IPv6 addresses that carry a DNS name. -/
def collectDevice (nb : NetboxData) (s : Snapshot) (d : NetboxDevice) (physical : Bool) :
    Except PyError Snapshot :=
  let s1 := updateEntry s d.name (fun e => { e with device := some d, physical := some physical })
  match collectPrimary nb d.name s1 d.primary_ip4 with
  | Except.error e => Except.error e
  | Except.ok s2 => collectPrimary nb d.name s2 d.primary_ip6

/-- The body of the address loop of `Netbox.collect` for one address. -/
def collectAddress (nb : NetboxData) (s : Snapshot) (a : NBAddress) :
    Except PyError Snapshot :=
  match a.interface with
  | none =>
    if a.dns_name = "" then Except.ok s   -- debug: no DNS name, skip
    else
      Except.ok (updateEntry s NO_DEVICE_NAME
        (fun e => { addAddr e { id := a.id, intf := a.intf, dns_name := a.dns_name,
                                interface := none } with physical := some false }))
  | some _ =>
    match resolveAddr nb a with
    | Except.error e => Except.error e
    | Except.ok (ra, name, physical) =>
      if (getEntry s name).isNone then Except.ok s   -- warning: device not collected, skip
      else if a.dns_name = "" then Except.ok s        -- debug: no DNS name, skip
      else Except.ok (updateEntry s name (fun e => { addAddr e ra with physical := some physical }))

/-- The loop `for device in ... devices.filter(...)`. -/
def collectDevicesLoop (nb : NetboxData) : List NBDevice → Snapshot → Except PyError Snapshot
  | [], s => Except.ok s
  | d :: ds, s =>
    match collectDevice nb s (NetboxDevice.dev d) true with
    | Except.error e => Except.error e
    | Except.ok s2 => collectDevicesLoop nb ds s2

/-- The loop `for vm in ... virtual_machines.all()`. -/
def collectVMsLoop (nb : NetboxData) : List NBVM → Snapshot → Except PyError Snapshot
  | [], s => Except.ok s
  | v :: vs, s =>
    match collectDevice nb s (NetboxDevice.vm v) false with
    | Except.error e => Except.error e
    | Except.ok s2 => collectVMsLoop nb vs s2

/-- The loop `for address in self.addresses.values()`. -/
def collectAddressesLoop (nb : NetboxData) : List NBAddress → Snapshot → Except PyError Snapshot
  | [], s => Except.ok s
  | a :: as, s =>
    match collectAddress nb s a with
    | Except.error e => Except.error e
    | Except.ok s2 => collectAddressesLoop nb as s2

/-- `Netbox.collect`: seed the `UNASSIGNED_ADDRESSES` entry (done in
`__init__`), collect devices and virtual machines, then walk all active
addresses. -/
def collect (nb : NetboxData) : Except PyError Snapshot :=
  let s0 : Snapshot := [(NO_DEVICE_NAME, { device := none, physical := none, addresses := [] })]
  match collectDevicesLoop nb nb.devices s0 with
  | Except.error e => Except.error e
  | Except.ok s1 =>
    match collectVMsLoop nb nb.vms s1 with
    | Except.error e => Except.error e
    | Except.ok s2 => collectAddressesLoop nb nb.addresses s2

/-! ### `Records._split_dns_name` -/

/-- The special labels that each extend the zone part of the split by one. -/
def specialLabels : List String := ["frack", "mgmt", "svc"]

/-- `sum(1 for i in ('frack', 'mgmt', 'svc') if i in parts)`. -/
def countSpecialLabels (parts : List String) : Nat :=
  (specialLabels.filter (fun i => parts.contains i)).length

/-- The log template of line 510 of the source. -/
def msgNoDCFromPfx : String :=
  "Failed to find DC for address %s, prefix %s, using global"

/-- The log template of line 517 of the source. -/
def msgNoDCAtAll : String :=
  "Failed to find DC for address %s from prefix or device, using global"

/-- The literal `'.wmnet'`. -/
def dotWmnet : String := ".wmnet"

/-- The literal `'global'`. -/
def globalSuffix : String := "global"

/-- `Records._split_dns_name`: split the address's FQDN into hostname and
zone, and derive the zone file name (`zone_name`), which for non-`.wmnet`
zones gains a `-<site>` suffix resolved from the containing prefixes or,
failing that, from the owning interface's device.  Returns the triple
`(hostname, zone, zone_name)` plus the emitted log entries. -/
def split_dns_name (pfxs : List NBPfx) (address : SAddress) :
    (String × String × String) × List LogEntry :=
  let parts := splitDots (pyStrip address.dns_name)
  let max_len := 2 + countSpecialLabels parts
  let split_len := min (parts.length - 1) max_len
  let hostname := joinDots (pySliceUpToNeg parts split_len)
  let zone := joinDots (pySliceFromNeg parts split_len)
  let tail : String × List LogEntry :=
    if strEndsWith zone dotWmnet then (zone, [])
    else
      let matching := pfxs.filter (fun p => inPfx address.intf.ip p)
      match pyMinByPfxlen matching with
      | some pk =>
        match pk.site with
        | some slug => (zone ++ "-" ++ slug, [])
        | none => (zone ++ "-" ++ globalSuffix, [(LogLevel.debug, msgNoDCFromPfx)])
      | none =>
        match address.interface with
        | some ri => (zone ++ "-" ++ ri.deviceSiteSlug, [])
        | none => (zone ++ "-" ++ globalSuffix, [(LogLevel.warning, msgNoDCAtAll)])
  ((hostname, zone, tail.1), tail.2)

/-! ### `Records._generate_address_records` -/

/-- The literal `'server'`. -/
def serverRole : String := "server"

/-- `Records._generate_address_records`: the list of forward records derived
for one address.  The short-circuit order of the Python `or` guards is
preserved by the nested matches (each disjunct is evaluated only when the
previous ones are falsy). -/
def generate_address_records (zone hostname : String) (address : SAddress)
    (device : Option NetboxDevice) (physical : Bool) : List ForwardRecord :=
  if physical = false then [{ zone := zone, hostname := hostname, intf := address.intf }]
  else
    match device with
    | none => [{ zone := zone, hostname := hostname, intf := address.intf }]
    | some d =>
      if d.device_role_slug ≠ serverRole then
        [{ zone := zone, hostname := hostname, intf := address.intf }]
      else
        (if NETBOX_DEVICE_MGMT_ONLY_STATUSES.contains d.status_value then []
         else [{ zone := zone, hostname := hostname, intf := address.intf }])
        ++
        (match address.interface with
         | none => []
         | some i =>
           if i.mgmt_only &&
              (strToLower d.name != strToLower d.asset_tag
                || NETBOX_DEVICE_MGMT_ONLY_STATUSES.contains d.status_value) then
             [{ zone := zone, hostname := strToLower d.asset_tag, intf := address.intf }]
           else [])

/-! ### `Records.generate` -/

/-- The dedup key of the zone sets: `RecordBase.__eq__`/`__hash__` compare
`(zone, hostname, ip)` only. -/
def fwdKey (r : ForwardRecord) : String × String × IPAddr := (r.zone, r.hostname, r.intf.ip)

/-- The dedup key of reverse records (same `RecordBase` comparison). -/
def revKey (r : ReverseRecord) : String × String × IPAddr := (r.zone, r.hostname, r.intf.ip)

/-- `set.add` on a direct zone's record set (an equal record is dropped). -/
def insertFwd (l : List ForwardRecord) (r : ForwardRecord) : List ForwardRecord :=
  if l.any (fun x => fwdKey x == fwdKey r) then l else l ++ [r]

/-- `set.add` on a reverse zone's record set. -/
def insertRev (l : List ReverseRecord) (r : ReverseRecord) : List ReverseRecord :=
  if l.any (fun x => revKey x == revKey r) then l else l ++ [r]

/-- `self.zones['direct'][zone_name].add(record)` (defaultdict of sets). -/
def addFwdToZones : List (String × List ForwardRecord) → String → ForwardRecord →
    List (String × List ForwardRecord)
  | [], zn, r => [(zn, [r])]
  | (z, rs) :: rest, zn, r =>
    if z = zn then (z, insertFwd rs r) :: rest else (z, rs) :: addFwdToZones rest zn r

/-- `self.zones['reverse'][zone].add(record)` (defaultdict of sets). -/
def addRevToZones : List (String × List ReverseRecord) → String → ReverseRecord →
    List (String × List ReverseRecord)
  | [], zn, r => [(zn, [r])]
  | (z, rs) :: rest, zn, r =>
    if z = zn then (z, insertRev rs r) :: rest else (z, rs) :: addRevToZones rest zn r

/-- `Records.zones`: the two zone-name-indexed collections of records. -/
structure Zones where
  direct : List (String × List ForwardRecord)
  reverse : List (String × List ReverseRecord)
deriving DecidableEq

/-- The body of `for record in records` inside `Records.generate`: add the
forward record to its direct zone, then add its reverse record (when any)
to the reverse zone. -/
def processRecord (pfxs : List NBPfx) (z : Zones) (zoneName : String) (r : ForwardRecord) :
    Except PyError Zones :=
  let z1 : Zones := { z with direct := addFwdToZones z.direct zoneName r }
  match r.get_reverse pfxs with
  | Except.error e => Except.error e
  | Except.ok none => Except.ok z1
  | Except.ok (some rr) => Except.ok { z1 with reverse := addRevToZones z1.reverse rr.zone rr }

/-- The loop `for record in records`. -/
def processRecordsLoop (pfxs : List NBPfx) : Zones → String → List ForwardRecord →
    Except PyError Zones
  | z, _, [] => Except.ok z
  | z, zn, r :: rs =>
    match processRecord pfxs z zn r with
    | Except.error e => Except.error e
    | Except.ok z2 => processRecordsLoop pfxs z2 zn rs

/-- The body of `for address in device_data['addresses']`: split the DNS
name, derive the forward records, count them, and file them (with their
reverse records) into the zones.  `device_data['physical']` is read with a
`false` default: the key is present whenever the address set is nonempty. -/
def processAddress (pfxs : List NBPfx) (entry : DeviceEntry)
    (st : Zones × Nat × List LogEntry) (address : SAddress) :
    Except PyError (Zones × Nat × List LogEntry) :=
  let split := split_dns_name pfxs address
  let hostname := split.1.1
  let zone := split.1.2.1
  let zone_name := split.1.2.2
  let records := generate_address_records zone hostname address entry.device
    (entry.physical.getD false)
  match processRecordsLoop pfxs st.1 zone_name records with
  | Except.error e => Except.error e
  | Except.ok z2 => Except.ok (z2, st.2.1 + records.length, st.2.2 ++ split.2)

/-- The loop `for address in device_data['addresses']`. -/
def processAddressesLoop (pfxs : List NBPfx) (entry : DeviceEntry) :
    Zones × Nat × List LogEntry → List SAddress → Except PyError (Zones × Nat × List LogEntry)
  | st, [] => Except.ok st
  | st, a :: as =>
    match processAddress pfxs entry st a with
    | Except.error e => Except.error e
    | Except.ok st2 => processAddressesLoop pfxs entry st2 as

/-- The loop `for name, device_data in self.netbox.devices.items()`. -/
def generateLoop (pfxs : List NBPfx) :
    Zones × Nat × List LogEntry → Snapshot → Except PyError (Zones × Nat × List LogEntry)
  | st, [] => Except.ok st
  | st, (_, entry) :: rest =>
    match processAddressesLoop pfxs entry st entry.addresses with
    | Except.error e => Except.error e
    | Except.ok st2 => generateLoop pfxs st2 rest

/-- The log template of line 415 of the source. -/
def msgGenerating : String := "Generating DNS records"

/-- The log template of line 429 of the source. -/
def msgGenerated : String :=
  "Generated %d direct and reverse records (%d each) in %d direct zones and %d reverse zones"

/-- The log template of line 433 of the source. -/
def msgCautionMinRecords : String :=
  "CAUTION: the generated records are less than the minimum limit of %d. Check the diff!"

/-- `Records.generate`: derive every record from the collected snapshot,
returning the zones, the forward-record count and the emitted log entries.
The final count check only logs; it changes neither the zones nor the
outcome. -/
def generate (devices : Snapshot) (pfxs : List NBPfx) (min_records : Nat) :
    Except PyError (Zones × Nat × List LogEntry) :=
  match generateLoop pfxs ({ direct := [], reverse := [] }, 0, [(LogLevel.info, msgGenerating)])
      devices with
  | Except.error e => Except.error e
  | Except.ok (z, n, logs) =>
    let logs2 := logs ++ [(LogLevel.info, msgGenerated)]
    Except.ok (z, n,
      if n < min_records then logs2 ++ [(LogLevel.error, msgCautionMinRecords)] else logs2)

/-! ### `validate_delta` -/

/-- The log template of line 573 of the source. -/
def msgDeltaError : String :=
  "CAUTION: %.1f%% of %s modified is over the error thresold. Check the diff!"

/-- The log template of line 575 of the source. -/
def msgDeltaWarning : String := "%.1f%% of %s modified is over the warning thresold"

/-- The log template of line 577 of the source. -/
def msgDeltaDebug : String := "%.1f%% of %s modified"

/-- `validate_delta`: with `existing == 0` it returns immediately; otherwise
it computes `changed * 100 / existing` (Python float division, modelled as
the exact rational) and logs exactly one line at the level selected by the
thresholds.  The function only logs — it never raises or aborts. -/
def validate_delta (changed existing : Int) (warning error : Int) (what : String) : List LogEntry :=
  if existing = 0 then []
  else
    let delta : ℚ := (changed * 100 : ℚ) / (existing : ℚ)
    if delta > (error : ℚ) then [(LogLevel.error, msgDeltaError)]
    else if delta > (warning : ℚ) then [(LogLevel.warning, msgDeltaWarning)]
    else [(LogLevel.debug, msgDeltaDebug)]

/-- The string `s` is the decimal representation of `m`: nonempty, decimal
digits only, no leading zero (except for `"0"` itself), with value `m`. -/
def isDecimalRepr (s : String) (m : Nat) : Prop :=
  s.data ≠ [] ∧ (∀ c ∈ s.data, 48 ≤ c.toNat ∧ c.toNat ≤ 57) ∧
  (2 ≤ s.data.length → (s.data.map hexDigitVal).headD 0 ≠ 0) ∧
  digitsVal 10 (s.data.map hexDigitVal) = m

/-! ## Theorems -/

/-- C9: `validate_delta` called with `existing = 0` returns without logging
anything (and, being total, without raising); with nonzero `existing` it
computes `changed*100/existing` and logs exactly one classification against
the two thresholds, never aborting. -/
theorem claim9_validate_delta (changed existing warning error : Int) (what : String) :
    (existing = 0 → validate_delta changed existing warning error what = []) ∧
    (existing ≠ 0 →
      validate_delta changed existing warning error what =
        (if ((changed * 100 : ℚ) / (existing : ℚ)) > (error : ℚ) then
          [(LogLevel.error, msgDeltaError)]
         else if ((changed * 100 : ℚ) / (existing : ℚ)) > (warning : ℚ) then
          [(LogLevel.warning, msgDeltaWarning)]
         else [(LogLevel.debug, msgDeltaDebug)])) := by
  constructor
  · intro h
    simp [validate_delta, h]
  · intro h
    simp [validate_delta, h]

/-- Witness for C9 at concrete inputs. -/
theorem claim9_validate_delta_witness :
    validate_delta 5 0 3 5 "lines" = [] ∧
    validate_delta 6 100 3 5 "lines" = [(LogLevel.error, msgDeltaError)] := by
  constructor
  · exact (claim9_validate_delta 5 0 3 5 "lines").1 rfl
  · rw [(claim9_validate_delta 6 100 3 5 "lines").2 (by decide)]
    norm_num

/-- C2: a virtual, missing, or non-`server` owner always yields exactly one
forward record with the supplied hostname.  A physical server yields the
hostname record exactly when its status is not management-only, plus the
lowercased-asset-tag record exactly when the owning interface is
management-only and (the name differs case-insensitively from the asset tag
or the status is management-only); in particular, a decommissioning
physical server with a management-only interface and a name differing from
its asset tag yields only the asset-tag record. -/
theorem claim2_generate_address_records (zone hostname : String) (address : SAddress)
    (device : Option NetboxDevice) (physical : Bool) :
    ((physical = false ∨ device = none ∨
        (∃ d, device = some d ∧ d.device_role_slug ≠ serverRole)) →
      generate_address_records zone hostname address device physical =
        [{ zone := zone, hostname := hostname, intf := address.intf }]) ∧
    (∀ d, device = some d → physical = true → d.device_role_slug = serverRole →
      (address.interface = none →
        generate_address_records zone hostname address device physical =
          (if d.status_value ∈ NETBOX_DEVICE_MGMT_ONLY_STATUSES then []
           else [{ zone := zone, hostname := hostname, intf := address.intf }])) ∧
      (∀ i, address.interface = some i →
        generate_address_records zone hostname address device physical =
          (if d.status_value ∈ NETBOX_DEVICE_MGMT_ONLY_STATUSES then []
           else [{ zone := zone, hostname := hostname, intf := address.intf }]) ++
          (if i.mgmt_only = true ∧ (strToLower d.name ≠ strToLower d.asset_tag ∨
              d.status_value ∈ NETBOX_DEVICE_MGMT_ONLY_STATUSES) then
            [{ zone := zone, hostname := strToLower d.asset_tag, intf := address.intf }]
           else []))) ∧
    (∀ d i, device = some d → physical = true → d.device_role_slug = serverRole →
      d.status_value = "decommissioning" → address.interface = some i → i.mgmt_only = true →
      strToLower d.name ≠ strToLower d.asset_tag →
      generate_address_records zone hostname address device physical =
        [{ zone := zone, hostname := strToLower d.asset_tag, intf := address.intf }]) := by
  refine ⟨?_, ?_, ?_⟩
  · rintro (h | h | ⟨d, rfl, hrole⟩)
    · simp [generate_address_records, h]
    · subst h
      cases physical <;> simp [generate_address_records]
    · cases physical <;> simp [generate_address_records, hrole]
  · rintro d rfl rfl hrole
    constructor
    · intro hnone
      simp [generate_address_records, hrole, hnone]
    · intro i hi
      simp only [generate_address_records, if_neg (by simp : ¬(true = false)), hrole,
        ite_not, hi]
      by_cases hs : d.status_value ∈ NETBOX_DEVICE_MGMT_ONLY_STATUSES
      · simp only [if_pos hs, List.elem_iff]
        by_cases hm : i.mgmt_only
        · simp [hs, hm]
        · simp [hs, hm]
      · simp only [List.elem_iff]
        by_cases hm : i.mgmt_only
        · by_cases hd : strToLower d.name = strToLower d.asset_tag
          · simp [hs, hm, hd]
          · simp [hs, hm, hd]
        · simp [hs, hm]
  · rintro d i rfl rfl hrole hst hi hm hd
    simp [generate_address_records, hrole, hi, hst, hm, hd,
      NETBOX_DEVICE_MGMT_ONLY_STATUSES]

/-- Witness for C2: a decommissioning server named differently from its
asset tag, reached through a management-only interface. -/
theorem claim2_generate_address_records_witness :
    generate_address_records "mgmt.eqiad.wmnet" "foo"
      { id := 1, intf := { ip := IPAddr.v4 167772165, pfxlen := 24 }, dns_name := "d",
        interface := some (ResolvedInterface.phys
          { id := 7, name := "mgmt0", mgmt_only := true, device_name := "foo",
            device_site_slug := "eqiad" }) }
      (some (NetboxDevice.dev
        { name := "foo", device_role_slug := "server", status_value := "decommissioning",
          asset_tag := "WMF1234", primary_ip4 := none, primary_ip6 := none }))
      true =
      [{ zone := "mgmt.eqiad.wmnet", hostname := "wmf1234",
         intf := { ip := IPAddr.v4 167772165, pfxlen := 24 } }] := by
  exact (claim2_generate_address_records "mgmt.eqiad.wmnet" "foo" _ _ true).2.2
    _ _ rfl rfl rfl rfl rfl rfl (by decide)

/-- The hostname returned by `split_dns_name` is the joined front slice,
whatever the zone-name branch does. -/
theorem split_dns_name_hostname (pfxs : List NBPfx) (a : SAddress) :
    (split_dns_name pfxs a).1.1 =
      joinDots (pySliceUpToNeg (splitDots (pyStrip a.dns_name))
        (min ((splitDots (pyStrip a.dns_name)).length - 1)
          (2 + countSpecialLabels (splitDots (pyStrip a.dns_name))))) := rfl

/-- The zone returned by `split_dns_name` is the joined back slice. -/
theorem split_dns_name_zone (pfxs : List NBPfx) (a : SAddress) :
    (split_dns_name pfxs a).1.2.1 =
      joinDots (pySliceFromNeg (splitDots (pyStrip a.dns_name))
        (min ((splitDots (pyStrip a.dns_name)).length - 1)
          (2 + countSpecialLabels (splitDots (pyStrip a.dns_name))))) := rfl

/-- C4: for a dotted FQDN (at least two labels), `_split_dns_name` splits
the label list so that the zone consists of exactly
`min(labels - 1, 2 + number of special labels present)` trailing labels —
that is, `2` plus one for each of `frack`, `mgmt`, `svc` present, capped so
that at least one label remains for the hostname. -/
theorem claim4_split_dns_name (pfxs : List NBPfx) (address : SAddress)
    (hdot : 2 ≤ (splitDots (pyStrip address.dns_name)).length) :
    ∃ hp zp, splitDots (pyStrip address.dns_name) = hp ++ zp ∧
      zp.length = min ((splitDots (pyStrip address.dns_name)).length - 1)
        (2 + countSpecialLabels (splitDots (pyStrip address.dns_name))) ∧
      hp ≠ [] ∧
      (split_dns_name pfxs address).1.1 = joinDots hp ∧
      (split_dns_name pfxs address).1.2.1 = joinDots zp := by
  set parts := splitDots (pyStrip address.dns_name) with hparts
  set k := min (parts.length - 1) (2 + countSpecialLabels parts) with hk
  have hk1 : 1 ≤ k := by
    have h1 : 1 ≤ parts.length - 1 := by omega
    have h2 : 1 ≤ 2 + countSpecialLabels parts := by omega
    omega
  have hklen : k ≤ parts.length - 1 := by omega
  refine ⟨parts.take (parts.length - k), parts.drop (parts.length - k), ?_, ?_, ?_, ?_, ?_⟩
  · exact (List.take_append_drop _ _).symm
  · have := List.length_drop (parts.length - k) parts
    omega
  · have hlen : (parts.take (parts.length - k)).length = parts.length - k := by
      rw [List.length_take]
      omega
    intro hnil
    rw [hnil] at hlen
    simp at hlen
    omega
  · rw [split_dns_name_hostname, ← hparts, ← hk]
    unfold pySliceUpToNeg
    rw [if_neg (by omega)]
  · rw [split_dns_name_zone, ← hparts, ← hk]
    unfold pySliceFromNeg
    rw [if_neg (by omega)]

/-- Witness for C4 at the spec's concrete example
`foo.mgmt.frack.eqiad.wmnet` (split point `2 + mgmt + frack = 4`). -/
theorem claim4_split_dns_name_witness :
    (∃ hp zp,
      splitDots (pyStrip "foo.mgmt.frack.eqiad.wmnet") = hp ++ zp ∧
      zp.length = min ((splitDots (pyStrip "foo.mgmt.frack.eqiad.wmnet")).length - 1)
        (2 + countSpecialLabels (splitDots (pyStrip "foo.mgmt.frack.eqiad.wmnet"))) ∧
      hp ≠ [] ∧
      (split_dns_name []
        { id := 1, intf := { ip := IPAddr.v4 167772165, pfxlen := 24 },
          dns_name := "foo.mgmt.frack.eqiad.wmnet", interface := none }).1.1 = joinDots hp ∧
      (split_dns_name []
        { id := 1, intf := { ip := IPAddr.v4 167772165, pfxlen := 24 },
          dns_name := "foo.mgmt.frack.eqiad.wmnet", interface := none }).1.2.1 = joinDots zp) ∧
    (split_dns_name []
      { id := 1, intf := { ip := IPAddr.v4 167772165, pfxlen := 24 },
        dns_name := "foo.mgmt.frack.eqiad.wmnet", interface := none }).1 =
      ("foo", "mgmt.frack.eqiad.wmnet", "mgmt.frack.eqiad.wmnet") := by
  constructor
  · exact claim4_split_dns_name []
      { id := 1, intf := { ip := IPAddr.v4 167772165, pfxlen := 24 },
        dns_name := "foo.mgmt.frack.eqiad.wmnet", interface := none } (by decide)
  · decide

/-! ### Lemmas about the prefix-selection helpers -/

/-- Insertion never produces the empty list. -/
theorem insertDesc_ne_nil (x : NBPfx) (l : List NBPfx) : insertDesc x l ≠ [] := by
  cases l with
  | nil => simp [insertDesc]
  | cons y ys =>
    unfold insertDesc
    split <;> simp

/-- Membership in an insertion. -/
theorem mem_insertDesc (x y : NBPfx) (l : List NBPfx) :
    y ∈ insertDesc x l ↔ y = x ∨ y ∈ l := by
  induction l with
  | nil => simp [insertDesc]
  | cons z zs ih =>
    unfold insertDesc
    split
    · simp
    · simp only [List.mem_cons, ih]
      tauto

/-- Sorting preserves membership. -/
theorem mem_sortDesc (y : NBPfx) (l : List NBPfx) :
    y ∈ sortDescByPfxlen l ↔ y ∈ l := by
  induction l with
  | nil => simp [sortDescByPfxlen]
  | cons x xs ih =>
    show y ∈ insertDesc x (sortDescByPfxlen xs) ↔ _
    rw [mem_insertDesc]
    simp [ih]

/-- Sorting a nonempty list gives a nonempty list. -/
theorem sortDesc_ne_nil (l : List NBPfx) (h : l ≠ []) : sortDescByPfxlen l ≠ [] := by
  cases l with
  | nil => exact absurd rfl h
  | cons x xs => exact insertDesc_ne_nil x (sortDescByPfxlen xs)

/-- Insertion preserves the descending-prefix-length pairwise invariant. -/
theorem pairwise_insertDesc (x : NBPfx) (l : List NBPfx)
    (h : l.Pairwise (fun a b => b.pfxlen ≤ a.pfxlen)) :
    (insertDesc x l).Pairwise (fun a b => b.pfxlen ≤ a.pfxlen) := by
  induction l with
  | nil => simp [insertDesc]
  | cons y ys ih =>
    rw [List.pairwise_cons] at h
    unfold insertDesc
    split
    · rename_i hyx
      rw [List.pairwise_cons]
      refine ⟨?_, List.pairwise_cons.2 h⟩
      intro z hz
      rcases List.mem_cons.1 hz with rfl | hz2
      · exact hyx
      · exact le_trans (h.1 z hz2) hyx
    · rename_i hyx
      rw [List.pairwise_cons]
      refine ⟨?_, ih h.2⟩
      intro z hz
      rcases (mem_insertDesc x z ys).1 hz with rfl | hz2
      · omega
      · exact h.1 z hz2

/-- The sorted list is descending by prefix length. -/
theorem sortDesc_pairwise (l : List NBPfx) :
    (sortDescByPfxlen l).Pairwise (fun a b => b.pfxlen ≤ a.pfxlen) := by
  induction l with
  | nil => simp [sortDescByPfxlen]
  | cons x xs ih => exact pairwise_insertDesc x (sortDescByPfxlen xs) ih

/-- On a descending list, `find?` of the first prefix of length at most 29
returns a longest such element. -/
theorem find?_le29_desc (l : List NBPfx)
    (h : l.Pairwise (fun a b => b.pfxlen ≤ a.pfxlen)) (q : NBPfx)
    (hfind : l.find? (fun p => decide (p.pfxlen ≤ 29)) = some q) :
    q ∈ l ∧ q.pfxlen ≤ 29 ∧ ∀ r ∈ l, r.pfxlen ≤ 29 → r.pfxlen ≤ q.pfxlen := by
  induction l with
  | nil => simp at hfind
  | cons x xs ih =>
    rw [List.pairwise_cons] at h
    rw [List.find?_cons] at hfind
    by_cases hx : x.pfxlen ≤ 29
    · rw [decide_eq_true hx] at hfind
      obtain rfl : x = q := by simpa using hfind
      refine ⟨List.mem_cons_self _ _, hx, ?_⟩
      intro r hr _
      rcases List.mem_cons.1 hr with rfl | hr2
      · exact le_refl _
      · exact h.1 r hr2
    · rw [decide_eq_false hx] at hfind
      obtain ⟨hq1, hq2, hq3⟩ := ih h.2 hfind
      refine ⟨List.mem_cons_of_mem _ hq1, hq2, ?_⟩
      intro r hr hr29
      rcases List.mem_cons.1 hr with rfl | hr2
      · exact absurd hr29 hx
      · exact hq3 r hr2 hr29

/-- C6: `get_reverse` returns `None` exactly when no configured prefix
contains the record's address, and in that case `Records.generate` still
adds the forward record to its direct zone while leaving every reverse zone
untouched. -/
theorem claim6_get_reverse_none (r : ForwardRecord) (pfxs : List NBPfx) :
    (r.get_reverse pfxs = Except.ok none ↔
      pfxs.filter (fun p => inPfx r.intf.ip p) = []) ∧
    (pfxs.filter (fun p => inPfx r.intf.ip p) = [] →
      ∀ z zn, processRecord pfxs z zn r =
        Except.ok { z with direct := addFwdToZones z.direct zn r }) := by
  have hnone : pfxs.filter (fun p => inPfx r.intf.ip p) = [] →
      r.get_reverse pfxs = Except.ok none := by
    intro h
    unfold ForwardRecord.get_reverse
    simp [h]
  constructor
  · constructor
    · intro hok
      by_contra hne
      unfold ForwardRecord.get_reverse at hok
      rw [if_neg (by simpa using hne)] at hok
      rcases hip : r.intf.ip with a | a
      · rw [hip] at hok hne
        simp only at hok
        by_cases h24 : 24 < r.intf.pfxlen
        · rw [if_pos h24] at hok
          rcases hsort : sortDescByPfxlen (pfxs.filter (fun p => inPfx (IPAddr.v4 a) p)) with
            _ | ⟨m0, rest⟩
          · exact sortDesc_ne_nil _ hne hsort
          · rw [hsort] at hok
            simp only at hok
            by_cases h29 : 29 < m0.pfxlen
            · rw [if_pos h29] at hok
              rcases hf : (m0 :: rest).find? (fun p => decide (p.pfxlen ≤ 29)) with _ | q
              · rw [hf] at hok
                simp at hok
              · rw [hf] at hok
                simp at hok
            · rw [if_neg h29] at hok
              simp at hok
        · rw [if_neg h24] at hok
          simp at hok
      · rw [hip] at hok
        simp at hok
    · exact hnone
  · intro h z zn
    unfold processRecord
    rw [hnone h]

/-- Witness for C6: an address contained in no configured prefix. -/
theorem claim6_get_reverse_none_witness :
    ({ zone := "example.org", hostname := "host",
       intf := { ip := IPAddr.v4 167772165, pfxlen := 24 } } :
        ForwardRecord).get_reverse [] = Except.ok none ∧
    processRecord [] { direct := [], reverse := [] } "example.org-esams"
      { zone := "example.org", hostname := "host",
        intf := { ip := IPAddr.v4 167772165, pfxlen := 24 } } =
      Except.ok { direct := [("example.org-esams",
        [{ zone := "example.org", hostname := "host",
           intf := { ip := IPAddr.v4 167772165, pfxlen := 24 } }])], reverse := [] } := by
  have h := claim6_get_reverse_none
    { zone := "example.org", hostname := "host",
      intf := { ip := IPAddr.v4 167772165, pfxlen := 24 } } []
  exact ⟨h.1.2 rfl, h.2 rfl { direct := [], reverse := [] } "example.org-esams"⟩

/-- C5: for an IPv4 record whose own prefix length exceeds 24, if every
configured prefix containing the address is longer than /29, the
consolidation step's unguarded `next()` raises `StopIteration`; and under
the precondition that a matching prefix longer than /29 implies some
matching prefix of length at most 29, `get_reverse` always returns
normally (the error branch is unreachable). -/
theorem claim5_get_reverse_stopiteration (r : ForwardRecord) (pfxs : List NBPfx) (a : Nat)
    (hip : r.intf.ip = IPAddr.v4 a) :
    (24 < r.intf.pfxlen →
      pfxs.filter (fun p => inPfx r.intf.ip p) ≠ [] →
      (∀ p ∈ pfxs.filter (fun p => inPfx r.intf.ip p), 29 < p.pfxlen) →
      r.get_reverse pfxs = Except.error PyError.stopIteration) ∧
    (((∃ p ∈ pfxs.filter (fun p => inPfx r.intf.ip p), 29 < p.pfxlen) →
        ∃ q ∈ pfxs.filter (fun p => inPfx r.intf.ip p), q.pfxlen ≤ 29) →
      ∃ v, r.get_reverse pfxs = Except.ok v) := by
  constructor
  · intro h24 hne hall
    rw [hip] at hne hall
    unfold ForwardRecord.get_reverse
    rw [hip]
    rw [if_neg (by simpa using hne)]
    simp only
    rw [if_pos h24]
    rcases hsort : sortDescByPfxlen (pfxs.filter (fun p => inPfx (IPAddr.v4 a) p)) with
      _ | ⟨m0, rest⟩
    · exact absurd hsort (sortDesc_ne_nil _ hne)
    · simp only []
      have hm0 : 29 < m0.pfxlen := by
        refine hall m0 ?_
        rw [← mem_sortDesc, hsort]
        exact List.mem_cons_self _ _
      rw [if_pos hm0]
      have hfind : (m0 :: rest).find? (fun p => decide (p.pfxlen ≤ 29)) = none := by
        rw [List.find?_eq_none]
        intro x hx
        have hx2 : x ∈ sortDescByPfxlen (pfxs.filter (fun p => inPfx (IPAddr.v4 a) p)) := by
          rw [hsort]; exact hx
        have := hall x ((mem_sortDesc _ _).1 hx2)
        simpa using this
      rw [hfind]
  · intro hpre
    by_cases hempty : pfxs.filter (fun p => inPfx r.intf.ip p) = []
    · refine ⟨none, ?_⟩
      unfold ForwardRecord.get_reverse
      simp [hempty]
    · rw [hip] at hempty hpre
      unfold ForwardRecord.get_reverse
      rw [hip]
      rw [if_neg (by simpa using hempty)]
      simp only
      by_cases h24 : 24 < r.intf.pfxlen
      · rw [if_pos h24]
        rcases hsort : sortDescByPfxlen (pfxs.filter (fun p => inPfx (IPAddr.v4 a) p)) with
          _ | ⟨m0, rest⟩
        · exact absurd hsort (sortDesc_ne_nil _ hempty)
        · simp only []
          by_cases hm0 : 29 < m0.pfxlen
          · rw [if_pos hm0]
            have hm0mem : m0 ∈ pfxs.filter (fun p => inPfx (IPAddr.v4 a) p) := by
              rw [← mem_sortDesc, hsort]
              exact List.mem_cons_self _ _
            obtain ⟨q, hq1, hq2⟩ := hpre ⟨m0, hm0mem, hm0⟩
            have hqsort : q ∈ m0 :: rest := by
              rw [← hsort]
              exact (mem_sortDesc _ _).2 hq1
            have hfind : ∃ q', (m0 :: rest).find? (fun p => decide (p.pfxlen ≤ 29)) = some q' := by
              rw [← Option.isSome_iff_exists]
              rw [List.find?_isSome]
              exact ⟨q, hqsort, by simpa using hq2⟩
            obtain ⟨q', hq'⟩ := hfind
            rw [hq']
            exact ⟨_, rfl⟩
          · rw [if_neg hm0]
            exact ⟨_, rfl⟩
      · rw [if_neg h24]
        exact ⟨_, rfl⟩

/-- Witness for C5: `10.0.0.5/30` with only a `/30` prefix configured
raises; with an additional `/24` it succeeds. -/
theorem claim5_get_reverse_stopiteration_witness :
    ({ zone := "example.org", hostname := "host",
       intf := { ip := IPAddr.v4 167772165, pfxlen := 30 } } :
        ForwardRecord).get_reverse
      [{ isV4 := true, network := 167772164, pfxlen := 30, site := none }] =
      Except.error PyError.stopIteration ∧
    ∃ v, ({ zone := "example.org", hostname := "host",
            intf := { ip := IPAddr.v4 167772165, pfxlen := 30 } } :
        ForwardRecord).get_reverse
      [{ isV4 := true, network := 167772164, pfxlen := 30, site := none },
       { isV4 := true, network := 167772160, pfxlen := 24, site := none }] =
      Except.ok v := by
  constructor
  · exact (claim5_get_reverse_stopiteration _ _ 167772165 rfl).1 (by decide) (by decide)
      (by decide)
  · exact (claim5_get_reverse_stopiteration _ _ 167772165 rfl).2
      (fun _ => ⟨{ isV4 := true, network := 167772160, pfxlen := 24, site := none },
        by decide, by decide⟩)

/-- The head of the descending sort bounds every element's prefix length. -/
theorem sortDesc_head_max (l : List NBPfx) (m0 : NBPfx) (rest : List NBPfx)
    (hsort : sortDescByPfxlen l = m0 :: rest) :
    ∀ p ∈ l, p.pfxlen ≤ m0.pfxlen := by
  intro p hp
  have hmem : p ∈ m0 :: rest := by
    rw [← hsort]
    exact (mem_sortDesc _ _).2 hp
  rcases List.mem_cons.1 hmem with rfl | hrest
  · exact le_refl _
  · have hpair := sortDesc_pairwise l
    rw [hsort, List.pairwise_cons] at hpair
    exact hpair.1 p hrest

/-- C3 (amended): for an IPv4 record lying in some configured prefix, if its
own prefix length is at most 24 the reverse record has the last octet as
pointer and the standard /24 reverse zone; if its own prefix length exceeds
24 the zone is computed from the most specific matching prefix of length at
most 29 (consolidating past any matching prefix longer than /29), rendered
in RFC 2317 hyphen notation when that selected prefix is longer than /24,
as the standard /24 zone of its network when it is exactly /24, and as the
default /24 split when it is wider — unless every matching prefix is longer
than /29, in which case the lookup raises (see C5). -/
theorem claim3_get_reverse_zone (r : ForwardRecord) (pfxs : List NBPfx) (a : Nat)
    (hip : r.intf.ip = IPAddr.v4 a)
    (hne : pfxs.filter (fun p => inPfx r.intf.ip p) ≠ []) :
    (r.intf.pfxlen ≤ 24 →
      r.get_reverse pfxs = Except.ok (some
        { zone := joinDots [Nat.repr (ipOctet a 1), Nat.repr (ipOctet a 2),
                            Nat.repr (ipOctet a 3), "in-addr", "arpa"],
          hostname := r.hostname ++ "." ++ r.zone, intf := r.intf,
          pointer := Nat.repr (ipOctet a 0) })) ∧
    (24 < r.intf.pfxlen →
      ((∀ p ∈ pfxs.filter (fun p => inPfx r.intf.ip p), 29 < p.pfxlen) ∨
       ∃ q ∈ pfxs.filter (fun p => inPfx r.intf.ip p),
         q.pfxlen ≤ 29 ∧
         (∀ p ∈ pfxs.filter (fun p => inPfx r.intf.ip p),
            p.pfxlen ≤ 29 → p.pfxlen ≤ q.pfxlen) ∧
         r.get_reverse pfxs = Except.ok (some
           { zone := if 24 < q.pfxlen then rfc2317Zone q
                     else if q.pfxlen = 24 then netStd24Zone q.network
                     else joinDots [Nat.repr (ipOctet a 1), Nat.repr (ipOctet a 2),
                                    Nat.repr (ipOctet a 3), "in-addr", "arpa"],
             hostname := r.hostname ++ "." ++ r.zone, intf := r.intf,
             pointer := Nat.repr (ipOctet a 0) }))) := by
  constructor
  · intro h24
    rw [hip] at hne
    unfold ForwardRecord.get_reverse
    rw [hip]
    rw [if_neg (by simpa using hne)]
    simp only
    rw [if_neg (by omega)]
    rfl
  · intro h24
    rw [hip] at hne
    unfold ForwardRecord.get_reverse
    rw [hip]
    rw [if_neg (by simpa using hne)]
    simp only
    rw [if_pos h24]
    rcases hsort : sortDescByPfxlen (pfxs.filter (fun p => inPfx (IPAddr.v4 a) p)) with
      _ | ⟨m0, rest⟩
    · exact absurd hsort (sortDesc_ne_nil _ hne)
    · simp only []
      by_cases hm0 : 29 < m0.pfxlen
      · rw [if_pos hm0]
        rcases hf : (m0 :: rest).find? (fun p => decide (p.pfxlen ≤ 29)) with _ | q
        · left
          intro p hp
          have hp2 : p ∈ m0 :: rest := by
            rw [← hsort]
            exact (mem_sortDesc _ _).2 hp
          have := List.find?_eq_none.1 hf p hp2
          simpa using this
        · right
          have hpair : (m0 :: rest).Pairwise (fun x y => y.pfxlen ≤ x.pfxlen) := by
            rw [← hsort]
            exact sortDesc_pairwise _
          obtain ⟨hq1, hq2, hq3⟩ := find?_le29_desc _ hpair q hf
          refine ⟨q, ?_, hq2, ?_, ?_⟩
          · rw [← mem_sortDesc, hsort]
            exact hq1
          · intro p hp hp29
            refine hq3 p ?_ hp29
            rw [← hsort]
            exact (mem_sortDesc _ _).2 hp
          · rw [hf]
            rfl
      · rw [if_neg hm0]
        right
        refine ⟨m0, ?_, by omega, ?_, rfl⟩
        · rw [← mem_sortDesc, hsort]
          exact List.mem_cons_self _ _
        · intro p hp _
          exact sortDesc_head_max _ _ _ hsort p hp

/-- Counterexample for C3 as stated: for `10.0.0.5/30` with configured
prefixes `10.0.0.4/30` and `10.0.0.0/24`, the most specific matching prefix
is the `/30`, yet the zone is not its RFC 2317 zone — the code consolidates
to the `/24` and uses the standard /24 reverse zone. -/
theorem claim3_get_reverse_zone_cex :
    inPfx (IPAddr.v4 167772165)
      { isV4 := true, network := 167772164, pfxlen := 30, site := none } = true ∧
    inPfx (IPAddr.v4 167772165)
      { isV4 := true, network := 167772160, pfxlen := 24, site := none } = true ∧
    rfc2317Zone { isV4 := true, network := 167772164, pfxlen := 30, site := none } =
      "4-30.0.0.10.in-addr.arpa" ∧
    ({ zone := "example.org", hostname := "host",
       intf := { ip := IPAddr.v4 167772165, pfxlen := 30 } } :
        ForwardRecord).get_reverse
      [{ isV4 := true, network := 167772164, pfxlen := 30, site := none },
       { isV4 := true, network := 167772160, pfxlen := 24, site := none }] =
      Except.ok (some { zone := "0.0.10.in-addr.arpa", hostname := "host.example.org",
                        intf := { ip := IPAddr.v4 167772165, pfxlen := 30 },
                        pointer := "5" }) ∧
    ("0.0.10.in-addr.arpa" : String) ≠ "4-30.0.0.10.in-addr.arpa" := by
  refine ⟨by decide, by decide, by decide, by rfl, by decide⟩

/-- Witness for C3 at the spec's two concrete examples: `10.0.0.5/24` in
`10.0.0.0/24`, and `10.0.0.5/28` with `10.0.0.0/28` and `10.0.0.0/24`
configured (which selects the `/28` in hyphen notation). -/
theorem claim3_get_reverse_zone_witness :
    ({ zone := "example.org", hostname := "host",
       intf := { ip := IPAddr.v4 167772165, pfxlen := 24 } } :
        ForwardRecord).get_reverse
        [{ isV4 := true, network := 167772160, pfxlen := 24, site := none }] =
      Except.ok (some
        { zone := joinDots [Nat.repr (ipOctet 167772165 1), Nat.repr (ipOctet 167772165 2),
                            Nat.repr (ipOctet 167772165 3), "in-addr", "arpa"],
          hostname := "host" ++ "." ++ "example.org",
          intf := { ip := IPAddr.v4 167772165, pfxlen := 24 },
          pointer := Nat.repr (ipOctet 167772165 0) }) ∧
    ((∀ p ∈ ([{ isV4 := true, network := 167772160, pfxlen := 28, site := none },
              { isV4 := true, network := 167772160, pfxlen := 24, site := none }] :
          List NBPfx).filter
          (fun p => inPfx ({ ip := IPAddr.v4 167772165, pfxlen := 28 } : IPIntf).ip p),
        29 < p.pfxlen) ∨
     ∃ q ∈ ([{ isV4 := true, network := 167772160, pfxlen := 28, site := none },
             { isV4 := true, network := 167772160, pfxlen := 24, site := none }] :
          List NBPfx).filter
          (fun p => inPfx ({ ip := IPAddr.v4 167772165, pfxlen := 28 } : IPIntf).ip p),
       q.pfxlen ≤ 29 ∧
       (∀ p ∈ ([{ isV4 := true, network := 167772160, pfxlen := 28, site := none },
                { isV4 := true, network := 167772160, pfxlen := 24, site := none }] :
            List NBPfx).filter
            (fun p => inPfx ({ ip := IPAddr.v4 167772165, pfxlen := 28 } : IPIntf).ip p),
          p.pfxlen ≤ 29 → p.pfxlen ≤ q.pfxlen) ∧
       ({ zone := "example.org", hostname := "host",
          intf := { ip := IPAddr.v4 167772165, pfxlen := 28 } } :
           ForwardRecord).get_reverse
         [{ isV4 := true, network := 167772160, pfxlen := 28, site := none },
          { isV4 := true, network := 167772160, pfxlen := 24, site := none }] =
         Except.ok (some
           { zone := if 24 < q.pfxlen then rfc2317Zone q
                     else if q.pfxlen = 24 then netStd24Zone q.network
                     else joinDots [Nat.repr (ipOctet 167772165 1),
                                    Nat.repr (ipOctet 167772165 2),
                                    Nat.repr (ipOctet 167772165 3), "in-addr", "arpa"],
             hostname := "host" ++ "." ++ "example.org",
             intf := { ip := IPAddr.v4 167772165, pfxlen := 28 },
             pointer := Nat.repr (ipOctet 167772165 0) })) ∧
    ({ zone := "example.org", hostname := "host",
       intf := { ip := IPAddr.v4 167772165, pfxlen := 28 } } :
        ForwardRecord).get_reverse
      [{ isV4 := true, network := 167772160, pfxlen := 28, site := none },
       { isV4 := true, network := 167772160, pfxlen := 24, site := none }] =
      Except.ok (some { zone := "0-28.0.0.10.in-addr.arpa", hostname := "host.example.org",
                        intf := { ip := IPAddr.v4 167772165, pfxlen := 28 },
                        pointer := "5" }) := by
  have h1 := claim3_get_reverse_zone
    { zone := "example.org", hostname := "host",
      intf := { ip := IPAddr.v4 167772165, pfxlen := 24 } }
    [{ isV4 := true, network := 167772160, pfxlen := 24, site := none }]
    167772165 rfl (by decide)
  have h2 := claim3_get_reverse_zone
    { zone := "example.org", hostname := "host",
      intf := { ip := IPAddr.v4 167772165, pfxlen := 28 } }
    [{ isV4 := true, network := 167772160, pfxlen := 28, site := none },
     { isV4 := true, network := 167772160, pfxlen := 24, site := none }]
    167772165 rfl (by decide)
  exact ⟨h1.1 (by decide), h2.2 (by decide), by rfl⟩

/-- `pyMinByPfxlen` returns `none` exactly on the empty list. -/
theorem pyMinByPfxlen_eq_none_iff (l : List NBPfx) : pyMinByPfxlen l = none ↔ l = [] := by
  cases l <;> simp [pyMinByPfxlen]

/-- The fold inside `pyMinByPfxlen` returns its accumulator or a list
element, of minimal prefix length among both. -/
theorem pyMinFold_spec (ps : List NBPfx) : ∀ acc : NBPfx,
    (ps.foldl (fun acc q => if q.pfxlen < acc.pfxlen then q else acc) acc = acc ∨
      ps.foldl (fun acc q => if q.pfxlen < acc.pfxlen then q else acc) acc ∈ ps) ∧
    (ps.foldl (fun acc q => if q.pfxlen < acc.pfxlen then q else acc) acc).pfxlen ≤ acc.pfxlen ∧
    ∀ p ∈ ps,
      (ps.foldl (fun acc q => if q.pfxlen < acc.pfxlen then q else acc) acc).pfxlen ≤ p.pfxlen := by
  induction ps with
  | nil => intro acc; simp
  | cons q qs ih =>
    intro acc
    rw [List.foldl_cons]
    obtain ⟨ihmem, ihacc, ihall⟩ := ih (if q.pfxlen < acc.pfxlen then q else acc)
    refine ⟨?_, ?_, ?_⟩
    · rcases ihmem with h | h
      · rw [h]
        split
        · exact Or.inr (List.mem_cons_self _ _)
        · exact Or.inl rfl
      · exact Or.inr (List.mem_cons_of_mem _ h)
    · refine le_trans ihacc ?_
      split <;> omega
    · intro p hp
      rcases List.mem_cons.1 hp with rfl | hp2
      · refine le_trans ihacc ?_
        split <;> omega
      · exact ihall p hp2

/-- `pyMinByPfxlen` returns a member of minimal prefix length. -/
theorem pyMinByPfxlen_spec (l : List NBPfx) (m : NBPfx) (h : pyMinByPfxlen l = some m) :
    m ∈ l ∧ ∀ p ∈ l, m.pfxlen ≤ p.pfxlen := by
  cases l with
  | nil => simp [pyMinByPfxlen] at h
  | cons p ps =>
    obtain rfl : ps.foldl (fun acc q => if q.pfxlen < acc.pfxlen then q else acc) p = m := by
      simpa [pyMinByPfxlen] using h
    obtain ⟨hmem, hacc, hall⟩ := pyMinFold_spec ps p
    constructor
    · rcases hmem with h2 | h2
      · rw [h2]; exact List.mem_cons_self _ _
      · exact List.mem_cons_of_mem _ h2
    · intro x hx
      rcases List.mem_cons.1 hx with rfl | hx2
      · exact hacc
      · exact hall x hx2

/-- C1 (amended): for an address whose zone does not end in `.wmnet`, the
zone file name is the zone suffixed with `-<site-slug>`, where the site is
taken from the least specific (smallest prefix length) configured prefix
containing the address (`global` when that prefix has no site); if no
prefix contains the address the suffix falls back to the owning interface's
device site; and if neither resolves the suffix is the literal `global` and
a warning is logged. -/
theorem claim1_split_dns_name_site (pfxs : List NBPfx) (address : SAddress)
    (hz : strEndsWith (split_dns_name pfxs address).1.2.1 dotWmnet = false) :
    (pfxs.filter (fun p => inPfx address.intf.ip p) ≠ [] →
      ∃ m ∈ pfxs.filter (fun p => inPfx address.intf.ip p),
        (∀ p ∈ pfxs.filter (fun p => inPfx address.intf.ip p), m.pfxlen ≤ p.pfxlen) ∧
        ((∃ slug, m.site = some slug ∧
            (split_dns_name pfxs address).1.2.2 =
              (split_dns_name pfxs address).1.2.1 ++ "-" ++ slug) ∨
         (m.site = none ∧
            (split_dns_name pfxs address).1.2.2 =
              (split_dns_name pfxs address).1.2.1 ++ "-" ++ globalSuffix))) ∧
    (pfxs.filter (fun p => inPfx address.intf.ip p) = [] →
      (∀ ri, address.interface = some ri →
        (split_dns_name pfxs address).1.2.2 =
          (split_dns_name pfxs address).1.2.1 ++ "-" ++ ri.deviceSiteSlug) ∧
      (address.interface = none →
        (split_dns_name pfxs address).1.2.2 =
          (split_dns_name pfxs address).1.2.1 ++ "-" ++ globalSuffix ∧
        (LogLevel.warning, msgNoDCAtAll) ∈ (split_dns_name pfxs address).2)) := by
  have hz' : strEndsWith (joinDots (pySliceFromNeg (splitDots (pyStrip address.dns_name))
      (min ((splitDots (pyStrip address.dns_name)).length - 1)
        (2 + countSpecialLabels (splitDots (pyStrip address.dns_name)))))) dotWmnet = false := hz
  constructor
  · intro hne
    rcases hmin : pyMinByPfxlen (pfxs.filter (fun p => inPfx address.intf.ip p)) with _ | m
    · rw [pyMinByPfxlen_eq_none_iff] at hmin
      exact absurd hmin hne
    · obtain ⟨hm1, hm2⟩ := pyMinByPfxlen_spec _ m hmin
      refine ⟨m, hm1, hm2, ?_⟩
      rcases hsite : m.site with _ | slug
      · right
        exact ⟨rfl, by simp [split_dns_name, hz', hmin, hsite]⟩
      · left
        exact ⟨slug, rfl, by simp [split_dns_name, hz', hmin, hsite]⟩
  · intro hempty
    have hmin : pyMinByPfxlen (pfxs.filter (fun p => inPfx address.intf.ip p)) = none := by
      rw [pyMinByPfxlen_eq_none_iff]
      exact hempty
    constructor
    · intro ri hri
      simp [split_dns_name, hz', hmin, hri]
    · intro hri
      constructor
      · simp [split_dns_name, hz', hmin, hri]
      · simp [split_dns_name, hz', hmin, hri]

/-- Counterexample for C1 as stated: `10.0.0.5` lies in both `10.0.0.0/24`
(site `aaaa`) and `10.0.0.0/16` (site `bbbb`); the code suffixes with the
site of the least specific `/16`, not the most specific `/24`. -/
theorem claim1_split_dns_name_site_cex :
    inPfx (IPAddr.v4 167772165)
      { isV4 := true, network := 167772160, pfxlen := 24, site := some "aaaa" } = true ∧
    inPfx (IPAddr.v4 167772165)
      { isV4 := true, network := 167772160, pfxlen := 16, site := some "bbbb" } = true ∧
    (split_dns_name
      [{ isV4 := true, network := 167772160, pfxlen := 24, site := some "aaaa" },
       { isV4 := true, network := 167772160, pfxlen := 16, site := some "bbbb" }]
      { id := 1, intf := { ip := IPAddr.v4 167772165, pfxlen := 24 },
        dns_name := "host.example.org", interface := none }).1 =
      ("host", "example.org", "example.org-bbbb") ∧
    ("example.org-bbbb" : String) ≠ "example.org-aaaa" := by
  refine ⟨by decide, by decide, by decide, by decide⟩

/-- Witness for C1: the no-prefix, no-interface fallback at a concrete
address logs a warning and uses the `global` suffix. -/
theorem claim1_split_dns_name_site_witness :
    (split_dns_name []
      { id := 1, intf := { ip := IPAddr.v4 167772165, pfxlen := 24 },
        dns_name := "host.example.org", interface := none }).1.2.2 =
      (split_dns_name []
        { id := 1, intf := { ip := IPAddr.v4 167772165, pfxlen := 24 },
          dns_name := "host.example.org", interface := none }).1.2.1 ++ "-" ++ globalSuffix ∧
    (LogLevel.warning, msgNoDCAtAll) ∈
      (split_dns_name []
        { id := 1, intf := { ip := IPAddr.v4 167772165, pfxlen := 24 },
          dns_name := "host.example.org", interface := none }).2 := by
  exact (claim1_split_dns_name_site []
    { id := 1, intf := { ip := IPAddr.v4 167772165, pfxlen := 24 },
      dns_name := "host.example.org", interface := none } (by decide)).2 (by decide) |>.2 rfl

/-- C10 (amended): when the generated record count is below `min_records`,
`Records.generate` emits its `CAUTION` diagnostic at error level and
completes normally — the floor is advisory, and neither the zones nor the
count depend on it. -/
theorem claim10_min_records_advisory (devices : Snapshot) (pfxs : List NBPfx)
    (min_records : Nat) (z : Zones) (n : Nat) (logs : List LogEntry)
    (h : generate devices pfxs min_records = Except.ok (z, n, logs)) :
    (n < min_records → (LogLevel.error, msgCautionMinRecords) ∈ logs) ∧
    (∀ min2 : Nat, ∃ logs2 : List LogEntry,
      generate devices pfxs min2 = Except.ok (z, n, logs2)) := by
  unfold generate at h ⊢
  rcases hloop : generateLoop pfxs
      ({ direct := [], reverse := [] }, 0, [(LogLevel.info, msgGenerating)]) devices with
    e | ⟨z0, n0, logs0⟩
  · rw [hloop] at h
    exact absurd h (by simp)
  · rw [hloop] at h
    simp only [Except.ok.injEq, Prod.mk.injEq] at h
    obtain ⟨rfl, rfl, rfl⟩ := h
    constructor
    · intro hlt
      rw [if_pos hlt]
      simp
    · intro min2
      exact ⟨_, rfl⟩

/-- Counterexample for C10 as stated: with an empty snapshot and
`min_records = 1` the run completes with zero records, and the diagnostic
is emitted at error level — no warning-level entry exists at all. -/
theorem claim10_min_records_advisory_cex :
    generate [] [] 1 = Except.ok ({ direct := [], reverse := [] }, 0,
      [(LogLevel.info, msgGenerating), (LogLevel.info, msgGenerated),
       (LogLevel.error, msgCautionMinRecords)]) ∧
    (LogLevel.error, msgCautionMinRecords) ∈
      ([(LogLevel.info, msgGenerating), (LogLevel.info, msgGenerated),
        (LogLevel.error, msgCautionMinRecords)] : List LogEntry) ∧
    ([(LogLevel.info, msgGenerating), (LogLevel.info, msgGenerated),
      (LogLevel.error, msgCautionMinRecords)] : List LogEntry).filter
        (fun e => e.1 == LogLevel.warning) = [] := by
  refine ⟨by rfl, by decide, by decide⟩

/-- Witness for C10 at a concrete input with a hypothesis discharged. -/
theorem claim10_min_records_advisory_witness :
    ((0 : Nat) < 1 → (LogLevel.error, msgCautionMinRecords) ∈
      ([(LogLevel.info, msgGenerating), (LogLevel.info, msgGenerated),
        (LogLevel.error, msgCautionMinRecords)] : List LogEntry)) ∧
    (∀ min2 : Nat, ∃ logs2 : List LogEntry,
      generate [] [] min2 = Except.ok ({ direct := [], reverse := [] }, 0, logs2)) := by
  exact claim10_min_records_advisory [] [] 1 { direct := [], reverse := [] } 0
    [(LogLevel.info, msgGenerating), (LogLevel.info, msgGenerated),
     (LogLevel.error, msgCautionMinRecords)] (by rfl)

/-! ### Invariant lemmas for `Netbox.collect` -/

/-- `updateEntry` preserves any per-address invariant that the update
function preserves (the fresh defaultdict entry has no addresses). -/
theorem updateEntry_inv (P : SAddress → Prop) (s : Snapshot) (name : String)
    (f : DeviceEntry → DeviceEntry)
    (hs : ∀ p ∈ s, ∀ a ∈ p.2.addresses, P a)
    (hf : ∀ e, (∀ a ∈ e.addresses, P a) → ∀ a ∈ (f e).addresses, P a) :
    ∀ p ∈ updateEntry s name f, ∀ a ∈ p.2.addresses, P a := by
  induction s with
  | nil =>
    intro p hp
    simp only [updateEntry, List.mem_singleton] at hp
    subst hp
    exact hf { device := none, physical := none, addresses := [] } (by simp)
  | cons q rest ih =>
    obtain ⟨qn, qe⟩ := q
    intro p hp
    unfold updateEntry at hp
    by_cases hn : qn = name
    · rw [if_pos hn] at hp
      rcases List.mem_cons.1 hp with rfl | hp2
      · exact hf qe (hs (qn, qe) (List.mem_cons_self _ _))
      · exact hs p (List.mem_cons_of_mem _ hp2)
    · rw [if_neg hn] at hp
      rcases List.mem_cons.1 hp with rfl | hp2
      · exact hs (qn, qe) (List.mem_cons_self _ _)
      · exact ih (fun x hx => hs x (List.mem_cons_of_mem _ hx)) p hp2

/-- `addAddr` preserves a per-address invariant that the new address obeys. -/
theorem addAddr_inv (P : SAddress → Prop) (e : DeviceEntry) (a : SAddress)
    (he : ∀ x ∈ e.addresses, P x) (ha : P a) :
    ∀ x ∈ (addAddr e a).addresses, P x := by
  unfold addAddr
  split
  · exact he
  · intro x hx
    rcases List.mem_append.1 hx with hx2 | hx2
    · exact he x hx2
    · rw [List.mem_singleton.1 hx2]
      exact ha

/-- `resolveAddr` preserves the DNS name. -/
theorem resolveAddr_dns_name (nb : NetboxData) (a : NBAddress) (ra : SAddress)
    (name : String) (physical : Bool)
    (h : resolveAddr nb a = Except.ok (ra, name, physical)) :
    ra.dns_name = a.dns_name := by
  unfold resolveAddr at h
  rcases hi : a.interface with _ | iid
  · rw [hi] at h
    simp only [Except.ok.injEq, Prod.mk.injEq] at h
    rw [← h.1]
  · rw [hi] at h
    simp only at h
    rcases hp : nb.physical_interfaces.find? (fun i => i.id == iid) with _ | pi
    · rw [hp] at h
      simp only at h
      rcases hv : nb.virtual_interfaces.find? (fun i => i.id == iid) with _ | vi
      · rw [hv] at h
        simp at h
      · rw [hv] at h
        simp only [Except.ok.injEq, Prod.mk.injEq] at h
        rw [← h.1]
    · rw [hp] at h
      simp only [Except.ok.injEq, Prod.mk.injEq] at h
      rw [← h.1]

/-- `collectPrimary` preserves the nonempty-DNS-name invariant. -/
theorem collectPrimary_inv (nb : NetboxData) (devName : String) (s : Snapshot)
    (pid : Option Nat) (s2 : Snapshot)
    (h : collectPrimary nb devName s pid = Except.ok s2)
    (hs : ∀ p ∈ s, ∀ a ∈ p.2.addresses, a.dns_name ≠ "") :
    ∀ p ∈ s2, ∀ a ∈ p.2.addresses, a.dns_name ≠ "" := by
  rcases pid with _ | pid
  · obtain rfl : s = s2 := by simpa [collectPrimary] using h
    exact hs
  · unfold collectPrimary at h
    simp only at h
    rcases hfind : nb.addresses.find? (fun a => a.id == pid) with _ | a
    · rw [hfind] at h
      simp at h
    · rw [hfind] at h
      simp only at h
      by_cases hd : a.dns_name = ""
      · rw [if_pos hd] at h
        obtain rfl : s = s2 := by simpa using h
        exact hs
      · rw [if_neg hd] at h
        rcases hres : resolveAddr nb a with e | ⟨ra, rname, rphys⟩
        · rw [hres] at h
          simp at h
        · rw [hres] at h
          simp only [Except.ok.injEq] at h
          subst h
          refine updateEntry_inv _ _ _ _ hs ?_
          intro e he
          refine addAddr_inv _ e ra he ?_
          rw [resolveAddr_dns_name nb a ra rname rphys hres]
          exact hd

/-- `collectDevice` preserves the nonempty-DNS-name invariant. -/
theorem collectDevice_inv (nb : NetboxData) (s : Snapshot) (d : NetboxDevice)
    (physical : Bool) (s2 : Snapshot)
    (h : collectDevice nb s d physical = Except.ok s2)
    (hs : ∀ p ∈ s, ∀ a ∈ p.2.addresses, a.dns_name ≠ "") :
    ∀ p ∈ s2, ∀ a ∈ p.2.addresses, a.dns_name ≠ "" := by
  unfold collectDevice at h
  simp only at h
  have hs1 : ∀ p ∈ updateEntry s d.name
      (fun e => { e with device := some d, physical := some physical }),
      ∀ a ∈ p.2.addresses, a.dns_name ≠ "" := by
    refine updateEntry_inv _ _ _ _ hs ?_
    intro e he
    exact he
  rcases h4 : collectPrimary nb d.name (updateEntry s d.name
      (fun e => { e with device := some d, physical := some physical })) d.primary_ip4 with
    e | s4
  · rw [h4] at h
    simp at h
  · rw [h4] at h
    exact collectPrimary_inv nb d.name s4 d.primary_ip6 s2 h
      (collectPrimary_inv nb d.name _ d.primary_ip4 s4 h4 hs1)

/-- `collectAddress` preserves the nonempty-DNS-name invariant. -/
theorem collectAddress_inv (nb : NetboxData) (s : Snapshot) (a : NBAddress)
    (s2 : Snapshot) (h : collectAddress nb s a = Except.ok s2)
    (hs : ∀ p ∈ s, ∀ a ∈ p.2.addresses, a.dns_name ≠ "") :
    ∀ p ∈ s2, ∀ x ∈ p.2.addresses, x.dns_name ≠ "" := by
  unfold collectAddress at h
  rcases hi : a.interface with _ | iid
  · rw [hi] at h
    by_cases hd : a.dns_name = ""
    · rw [if_pos hd] at h
      obtain rfl : s = s2 := by simpa using h
      exact hs
    · rw [if_neg hd] at h
      simp only [Except.ok.injEq] at h
      subst h
      refine updateEntry_inv _ _ _ _ hs ?_
      intro e he
      intro x hx
      exact addAddr_inv (fun y => y.dns_name ≠ "") e
        { id := a.id, intf := a.intf, dns_name := a.dns_name, interface := none } he hd x hx
  · rw [hi] at h
    rcases hres : resolveAddr nb a with e | ⟨ra, rname, rphys⟩
    · rw [hres] at h
      simp at h
    · rw [hres] at h
      simp only at h
      by_cases hg : (getEntry s rname).isNone
      · rw [if_pos hg] at h
        obtain rfl : s = s2 := by simpa using h
        exact hs
      · rw [if_neg hg] at h
        by_cases hd : a.dns_name = ""
        · rw [if_pos hd] at h
          obtain rfl : s = s2 := by simpa using h
          exact hs
        · rw [if_neg hd] at h
          simp only [Except.ok.injEq] at h
          subst h
          refine updateEntry_inv _ _ _ _ hs ?_
          intro e he x hx
          refine addAddr_inv (fun y => y.dns_name ≠ "") e ra he ?_ x hx
          show ra.dns_name ≠ ""
          rw [resolveAddr_dns_name nb a ra rname rphys hres]
          exact hd

/-- The device loop preserves the invariant. -/
theorem collectDevicesLoop_inv (nb : NetboxData) (ds : List NBDevice) :
    ∀ (s s2 : Snapshot), collectDevicesLoop nb ds s = Except.ok s2 →
    (∀ p ∈ s, ∀ a ∈ p.2.addresses, a.dns_name ≠ "") →
    ∀ p ∈ s2, ∀ a ∈ p.2.addresses, a.dns_name ≠ "" := by
  induction ds with
  | nil =>
    intro s s2 h hs
    obtain rfl : s = s2 := by simpa [collectDevicesLoop] using h
    exact hs
  | cons d ds ih =>
    intro s s2 h hs
    unfold collectDevicesLoop at h
    rcases hstep : collectDevice nb s (NetboxDevice.dev d) true with e | s3
    · rw [hstep] at h
      simp at h
    · rw [hstep] at h
      exact ih s3 s2 h (collectDevice_inv nb s _ true s3 hstep hs)

/-- The VM loop preserves the invariant. -/
theorem collectVMsLoop_inv (nb : NetboxData) (vs : List NBVM) :
    ∀ (s s2 : Snapshot), collectVMsLoop nb vs s = Except.ok s2 →
    (∀ p ∈ s, ∀ a ∈ p.2.addresses, a.dns_name ≠ "") →
    ∀ p ∈ s2, ∀ a ∈ p.2.addresses, a.dns_name ≠ "" := by
  induction vs with
  | nil =>
    intro s s2 h hs
    obtain rfl : s = s2 := by simpa [collectVMsLoop] using h
    exact hs
  | cons v vs ih =>
    intro s s2 h hs
    unfold collectVMsLoop at h
    rcases hstep : collectDevice nb s (NetboxDevice.vm v) false with e | s3
    · rw [hstep] at h
      simp at h
    · rw [hstep] at h
      exact ih s3 s2 h (collectDevice_inv nb s _ false s3 hstep hs)

/-- The address loop preserves the invariant. -/
theorem collectAddressesLoop_inv (nb : NetboxData) (l : List NBAddress) :
    ∀ (s s2 : Snapshot), collectAddressesLoop nb l s = Except.ok s2 →
    (∀ p ∈ s, ∀ a ∈ p.2.addresses, a.dns_name ≠ "") →
    ∀ p ∈ s2, ∀ a ∈ p.2.addresses, a.dns_name ≠ "" := by
  induction l with
  | nil =>
    intro s s2 h hs
    obtain rfl : s = s2 := by simpa [collectAddressesLoop] using h
    exact hs
  | cons a l ih =>
    intro s s2 h hs
    unfold collectAddressesLoop at h
    rcases hstep : collectAddress nb s a with e | s3
    · rw [hstep] at h
      simp at h
    · rw [hstep] at h
      exact ih s3 s2 h (collectAddress_inv nb s a s3 hstep hs)

/-- C8: every address held in a successfully collected snapshot has a
nonempty DNS name — `collect` and `_collect_device` skip every
empty-DNS-name address before it can reach record derivation, so no
forward record is ever produced for such an address. -/
theorem claim8_collect_dns_name_nonempty (nb : NetboxData) (s : Snapshot)
    (h : collect nb = Except.ok s) :
    ∀ p ∈ s, ∀ a ∈ p.2.addresses, a.dns_name ≠ "" := by
  unfold collect at h
  simp only at h
  rcases h1 : collectDevicesLoop nb nb.devices
      [(NO_DEVICE_NAME, { device := none, physical := none, addresses := [] })] with e | s1
  · rw [h1] at h
    simp at h
  · rw [h1] at h
    simp only at h
    rcases h2 : collectVMsLoop nb nb.vms s1 with e | s2
    · rw [h2] at h
      simp at h
    · rw [h2] at h
      simp only at h
      have hs1 := collectDevicesLoop_inv nb nb.devices _ s1 h1 (by simp)
      have hs2 := collectVMsLoop_inv nb nb.vms s1 s2 h2 hs1
      exact collectAddressesLoop_inv nb nb.addresses s2 s h hs2

/-- Witness for C8: a one-address inventory collects successfully, and the
stored address's DNS name is nonempty. -/
theorem claim8_collect_dns_name_nonempty_witness :
    ({ id := 1, intf := { ip := IPAddr.v4 167772165, pfxlen := 24 },
       dns_name := "x.example.org", interface := none } : SAddress).dns_name ≠ "" := by
  refine claim8_collect_dns_name_nonempty
    { addresses := [{ id := 1, intf := { ip := IPAddr.v4 167772165, pfxlen := 24 }, dns_name := "x.example.org", interface := none }], physical_interfaces := [], virtual_interfaces := [], devices := [], vms := [] }
    [(NO_DEVICE_NAME, { device := none, physical := some false, addresses := [{ id := 1, intf := { ip := IPAddr.v4 167772165, pfxlen := 24 }, dns_name := "x.example.org", interface := none }] })]
    (by rfl)
    (NO_DEVICE_NAME, { device := none, physical := some false, addresses := [{ id := 1, intf := { ip := IPAddr.v4 167772165, pfxlen := 24 }, dns_name := "x.example.org", interface := none }] })
    (by decide)
    { id := 1, intf := { ip := IPAddr.v4 167772165, pfxlen := 24 }, dns_name := "x.example.org", interface := none }
    (by decide)

/-! ### Positional-value lemmas for the reverse-record ordering -/

/-- Folding digits onto an accumulator is positional. -/
theorem digitsVal_foldl (b : Nat) (l : List Nat) : ∀ a : Nat,
    l.foldl (fun n d => b * n + d) a = a * b ^ l.length + digitsVal b l := by
  induction l with
  | nil => intro a; simp [digitsVal]
  | cons d t ih =>
    intro a
    rw [List.foldl_cons, ih (b * a + d)]
    have hd : digitsVal b (d :: t) = d * b ^ t.length + digitsVal b t := by
      show (d :: t).foldl (fun n x => b * n + x) 0 = _
      rw [List.foldl_cons]
      have h0 : b * 0 + d = d := by omega
      rw [h0, ih d]
    rw [List.length_cons, hd]
    ring

/-- Peeling the leading digit off a positional value. -/
theorem digitsVal_cons (b d : Nat) (t : List Nat) :
    digitsVal b (d :: t) = d * b ^ t.length + digitsVal b t := by
  show (d :: t).foldl (fun n x => b * n + x) 0 = _
  rw [List.foldl_cons]
  have h0 : b * 0 + d = d := by omega
  rw [h0]
  simpa using digitsVal_foldl b t d

/-- A digit string is bounded by the base power of its length. -/
theorem digitsVal_lt_pow (b : Nat) (l : List Nat) (h : ∀ d ∈ l, d < b) :
    digitsVal b l < b ^ l.length := by
  induction l with
  | nil => simp [digitsVal]
  | cons d t ih =>
    rw [digitsVal_cons, List.length_cons]
    have hd : d < b := h d (List.mem_cons_self _ _)
    have ht : digitsVal b t < b ^ t.length :=
      ih (fun x hx => h x (List.mem_cons_of_mem _ hx))
    calc d * b ^ t.length + digitsVal b t < d * b ^ t.length + b ^ t.length := by omega
    _ = (d + 1) * b ^ t.length := by ring
    _ ≤ b * b ^ t.length := Nat.mul_le_mul_right _ (Nat.succ_le_of_lt hd)
    _ = b ^ (t.length + 1) := by ring

/-- On equal-length digit lists, positional comparison is Python's list
comparison. -/
theorem digitsVal_lt_iff_of_length_eq (b : Nat) (l1 : List Nat) : ∀ l2 : List Nat,
    l1.length = l2.length → (∀ d ∈ l1, d < b) → (∀ d ∈ l2, d < b) →
    (digitsVal b l1 < digitsVal b l2 ↔ listLtNat l1 l2 = true) := by
  induction l1 with
  | nil =>
    intro l2 hlen _ _
    obtain rfl : l2 = [] := by cases l2 <;> simp_all
    simp [digitsVal, listLtNat]
  | cons x xs ih =>
    intro l2 hlen h1 h2
    cases l2 with
    | nil => simp at hlen
    | cons y ys =>
      have hleneq : xs.length = ys.length := by simpa using hlen
      rw [digitsVal_cons, digitsVal_cons, hleneq]
      have hv1 : digitsVal b xs < b ^ ys.length := by
        rw [← hleneq]
        exact digitsVal_lt_pow b xs (fun d hd => h1 d (List.mem_cons_of_mem _ hd))
      have hv2 : digitsVal b ys < b ^ ys.length :=
        digitsVal_lt_pow b ys (fun d hd => h2 d (List.mem_cons_of_mem _ hd))
      rcases Nat.lt_trichotomy x y with hxy | rfl | hxy
      · have hmul : (x + 1) * b ^ ys.length ≤ y * b ^ ys.length :=
          Nat.mul_le_mul_right _ (Nat.succ_le_of_lt hxy)
        have hexp : (x + 1) * b ^ ys.length = x * b ^ ys.length + b ^ ys.length := by ring
        have hlt : x * b ^ ys.length + digitsVal b xs <
            y * b ^ ys.length + digitsVal b ys := by omega
        have hls : listLtNat (x :: xs) (y :: ys) = true := by
          unfold listLtNat
          rw [if_pos hxy]
        exact iff_of_true hlt hls
      · have hls : listLtNat (x :: xs) (x :: ys) = listLtNat xs ys := by
          simp [listLtNat]
        rw [hls, ← ih ys hleneq (fun d hd => h1 d (List.mem_cons_of_mem _ hd))
          (fun d hd => h2 d (List.mem_cons_of_mem _ hd))]
        omega
      · have hmul : (y + 1) * b ^ ys.length ≤ x * b ^ ys.length :=
          Nat.mul_le_mul_right _ (Nat.succ_le_of_lt hxy)
        have hexp : (y + 1) * b ^ ys.length = y * b ^ ys.length + b ^ ys.length := by ring
        have hls : listLtNat (x :: xs) (y :: ys) = false := by
          unfold listLtNat
          rw [if_neg (Nat.lt_asymm hxy), if_pos hxy]
        refine iff_of_false (by omega) (by simp [hls])

/-- A shorter digit string (against one without a leading zero) has the
smaller positional value. -/
theorem digitsVal_lt_of_length_lt (b : Nat) (hb : 1 ≤ b) (l1 l2 : List Nat)
    (hlen : l1.length < l2.length) (h1 : ∀ d ∈ l1, d < b) (hhd : 1 ≤ l2.headD 0) :
    digitsVal b l1 < digitsVal b l2 := by
  cases l2 with
  | nil => simp at hlen
  | cons d t =>
    have hd : 1 ≤ d := by simpa using hhd
    have hub : digitsVal b l1 < b ^ l1.length := digitsVal_lt_pow b l1 h1
    have hpow : b ^ l1.length ≤ b ^ t.length :=
      Nat.pow_le_pow_right hb (by simpa using Nat.lt_succ_iff.1 (by simpa using hlen))
    rw [digitsVal_cons]
    have hone : 1 * b ^ t.length ≤ d * b ^ t.length := Nat.mul_le_mul_right _ hd
    have hexp : 1 * b ^ t.length = b ^ t.length := by ring
    omega

/-- For digit lists (digits below 10, no leading zero), comparison of
positional values in any base of at least 10 is the length-then-lex order —
in particular it does not depend on the base. -/
theorem digitsVal_lt_iff_lenLex (b : Nat) (hb : 10 ≤ b) (l1 l2 : List Nat)
    (h1 : ∀ d ∈ l1, d < 10) (h2 : ∀ d ∈ l2, d < 10)
    (hh1 : 2 ≤ l1.length → l1.headD 0 ≠ 0) (hh2 : 2 ≤ l2.length → l2.headD 0 ≠ 0)
    (hn1 : l1 ≠ []) (hn2 : l2 ≠ []) :
    (digitsVal b l1 < digitsVal b l2 ↔
      (l1.length < l2.length ∨ (l1.length = l2.length ∧ listLtNat l1 l2 = true))) := by
  have h1b : ∀ d ∈ l1, d < b := fun d hd => lt_of_lt_of_le (h1 d hd) hb
  have h2b : ∀ d ∈ l2, d < b := fun d hd => lt_of_lt_of_le (h2 d hd) hb
  have hbpos : 1 ≤ b := by omega
  rcases Nat.lt_trichotomy l1.length l2.length with hlt | heq | hgt
  · have hpos1 : 1 ≤ l1.length := List.length_pos.2 hn1
    have hhd : 1 ≤ l2.headD 0 := by
      have := hh2 (by omega)
      cases l2 with
      | nil => exact absurd rfl hn2
      | cons d t => simp only [List.headD_cons] at this ⊢; omega
    exact iff_of_true (digitsVal_lt_of_length_lt b hbpos l1 l2 hlt h1b hhd) (Or.inl hlt)
  · rw [digitsVal_lt_iff_of_length_eq b l1 l2 heq h1b h2b]
    constructor
    · intro h
      exact Or.inr ⟨heq, h⟩
    · rintro (h | ⟨_, h⟩)
      · omega
      · exact h
  · have hpos2 : 1 ≤ l2.length := List.length_pos.2 hn2
    have hhd : 1 ≤ l1.headD 0 := by
      have := hh1 (by omega)
      cases l1 with
      | nil => exact absurd rfl hn1
      | cons d t => simp only [List.headD_cons] at this ⊢; omega
    have hflip : digitsVal b l2 < digitsVal b l1 :=
      digitsVal_lt_of_length_lt b hbpos l2 l1 hgt h2b hhd
    refine iff_of_false (by omega) ?_
    rintro (h | ⟨h, _⟩) <;> omega

/-- Splitting a dot-free list yields a single label. -/
theorem splitDotsAux_no_dot (l : List Char) (h : ∀ c ∈ l, c ≠ '.') : ∀ acc : List Char,
    splitDotsAux l acc = [acc.reverse ++ l] := by
  induction l with
  | nil => intro acc; simp [splitDotsAux]
  | cons c cs ih =>
    intro acc
    unfold splitDotsAux
    rw [if_neg (h c (List.mem_cons_self _ _))]
    rw [ih (fun x hx => h x (List.mem_cons_of_mem _ hx)) (c :: acc)]
    simp

/-- Splitting a dot-free string yields the string itself as sole label. -/
theorem splitDots_no_dot (s : String) (h : ∀ c ∈ s.data, c ≠ '.') :
    splitDots s = [s] := by
  unfold splitDots
  rw [splitDotsAux_no_dot s.data h []]
  simp

/-- Python list comparison of singletons is the comparison of the values. -/
theorem listLtNat_singleton (a b : Nat) : listLtNat [a] [b] = decide (a < b) := by
  by_cases h : a < b
  · simp [listLtNat, h]
  · by_cases h2 : b < a
    · simp [listLtNat, h, h2]
    · simp [listLtNat, h, h2]

/-- A decimal digit character parses below 10. -/
theorem hexDigitVal_lt_ten (c : Char) (h1 : 48 ≤ c.toNat) (h2 : c.toNat ≤ 57) :
    hexDigitVal c < 10 := by
  unfold hexDigitVal
  rw [if_pos ⟨h1, h2⟩]
  omega

/-- C7: reverse records with single-label decimal pointers (the IPv4 case)
are ordered by the numeric value of the pointer, then by the hostname —
numeric rather than lexicographic comparison. -/
theorem claim7_reverse_sort_numeric (r1 r2 : ReverseRecord) (m n : Nat)
    (h1 : isDecimalRepr r1.pointer m) (h2 : isDecimalRepr r2.pointer n) :
    (revLt r1 r2 = true ↔ (m < n ∨ (m = n ∧ pyStrLt r1.hostname r2.hostname = true))) := by
  obtain ⟨hne1, hc1, hh1, hv1⟩ := h1
  obtain ⟨hne2, hc2, hh2, hv2⟩ := h2
  have hdot1 : ∀ c ∈ r1.pointer.data, c ≠ '.' := by
    intro c hc habs
    have hb := (hc1 c hc).1
    rw [habs] at hb
    exact absurd hb (by decide)
  have hdot2 : ∀ c ∈ r2.pointer.data, c ≠ '.' := by
    intro c hc habs
    have hb := (hc2 c hc).1
    rw [habs] at hb
    exact absurd hb (by decide)
  have hsp1 : splitDots r1.pointer = [r1.pointer] := splitDots_no_dot _ hdot1
  have hsp2 : splitDots r2.pointer = [r2.pointer] := splitDots_no_dot _ hdot2
  have ht1 : ReverseRecord.to_tuple r1 = ([hexVal r1.pointer], r1.hostname) := by
    unfold ReverseRecord.to_tuple
    rw [hsp1]
    rfl
  have ht2 : ReverseRecord.to_tuple r2 = ([hexVal r2.pointer], r2.hostname) := by
    unfold ReverseRecord.to_tuple
    rw [hsp2]
    rfl
  have hd1 : ∀ d ∈ r1.pointer.data.map hexDigitVal, d < 10 := by
    intro d hd
    obtain ⟨c, hc, rfl⟩ := List.mem_map.1 hd
    exact hexDigitVal_lt_ten c (hc1 c hc).1 (hc1 c hc).2
  have hd2 : ∀ d ∈ r2.pointer.data.map hexDigitVal, d < 10 := by
    intro d hd
    obtain ⟨c, hc, rfl⟩ := List.mem_map.1 hd
    exact hexDigitVal_lt_ten c (hc2 c hc).1 (hc2 c hc).2
  have hmn1 : ∀ d ∈ r1.pointer.data.map hexDigitVal, d < 16 :=
    fun d hd => lt_of_lt_of_le (hd1 d hd) (by omega)
  have hml1 : 2 ≤ (r1.pointer.data.map hexDigitVal).length →
      (r1.pointer.data.map hexDigitVal).headD 0 ≠ 0 := by
    intro h
    exact hh1 (by simpa using h)
  have hml2 : 2 ≤ (r2.pointer.data.map hexDigitVal).length →
      (r2.pointer.data.map hexDigitVal).headD 0 ≠ 0 := by
    intro h
    exact hh2 (by simpa using h)
  have hmn01 : r1.pointer.data.map hexDigitVal ≠ [] := by
    simpa [List.map_eq_nil_iff] using hne1
  have hmn02 : r2.pointer.data.map hexDigitVal ≠ [] := by
    simpa [List.map_eq_nil_iff] using hne2
  have hlex10 := digitsVal_lt_iff_lenLex 10 (le_refl 10)
    (r1.pointer.data.map hexDigitVal) (r2.pointer.data.map hexDigitVal)
    hd1 hd2 hml1 hml2 hmn01 hmn02
  have hlex16 := digitsVal_lt_iff_lenLex 16 (by omega)
    (r1.pointer.data.map hexDigitVal) (r2.pointer.data.map hexDigitVal)
    hd1 hd2 hml1 hml2 hmn01 hmn02
  have hlex10' := digitsVal_lt_iff_lenLex 10 (le_refl 10)
    (r2.pointer.data.map hexDigitVal) (r1.pointer.data.map hexDigitVal)
    hd2 hd1 hml2 hml1 hmn02 hmn01
  have hlex16' := digitsVal_lt_iff_lenLex 16 (by omega)
    (r2.pointer.data.map hexDigitVal) (r1.pointer.data.map hexDigitVal)
    hd2 hd1 hml2 hml1 hmn02 hmn01
  have hab : hexVal r1.pointer < hexVal r2.pointer ↔ m < n := by
    rw [← hv1, ← hv2]
    exact hlex16.trans hlex10.symm
  have hba : hexVal r2.pointer < hexVal r1.pointer ↔ n < m := by
    rw [← hv1, ← hv2]
    exact hlex16'.trans hlex10'.symm
  unfold revLt
  simp only [ht1, ht2, listLtNat_singleton]
  by_cases hab' : hexVal r1.pointer < hexVal r2.pointer
  · rw [decide_eq_true hab', if_pos rfl]
    exact iff_of_true rfl (Or.inl (hab.1 hab'))
  · rw [decide_eq_false hab', if_neg (by simp)]
    by_cases hba' : hexVal r2.pointer < hexVal r1.pointer
    · rw [decide_eq_true hba', if_pos rfl]
      refine iff_of_false (by simp) ?_
      have hnm : n < m := hba.1 hba'
      rintro (h | ⟨h, _⟩) <;> omega
    · rw [decide_eq_false hba', if_neg (by simp)]
      have hmn : m = n := by
        rcases Nat.lt_trichotomy m n with h | h | h
        · exact absurd (hab.2 h) hab'
        · exact h
        · exact absurd (hba.2 h) hba'
      constructor
      · intro h
        exact Or.inr ⟨hmn, h⟩
      · rintro (h | ⟨_, h⟩)
        · exact absurd (hab.2 h) hab'
        · exact h

/-- Witness for C7: in one zone, pointer `"2"` sorts strictly before
pointer `"10"` even though `"10"` is the lexicographically smaller string. -/
theorem claim7_reverse_sort_numeric_witness :
    isDecimalRepr "2" 2 ∧ isDecimalRepr "10" 10 ∧
    revLt
      { zone := "0.0.10.in-addr.arpa", hostname := "a.example.org",
        intf := { ip := IPAddr.v4 167772162, pfxlen := 24 }, pointer := "2" }
      { zone := "0.0.10.in-addr.arpa", hostname := "a.example.org",
        intf := { ip := IPAddr.v4 167772170, pfxlen := 24 }, pointer := "10" } = true ∧
    pyStrLt "10" "2" = true := by
  refine ⟨⟨by decide, by decide, by decide, by decide⟩,
    ⟨by decide, by decide, by decide, by decide⟩, ?_, by decide⟩
  exact (claim7_reverse_sort_numeric
    { zone := "0.0.10.in-addr.arpa", hostname := "a.example.org",
      intf := { ip := IPAddr.v4 167772162, pfxlen := 24 }, pointer := "2" }
    { zone := "0.0.10.in-addr.arpa", hostname := "a.example.org",
      intf := { ip := IPAddr.v4 167772170, pfxlen := 24 }, pointer := "10" }
    2 10 ⟨by decide, by decide, by decide, by decide⟩
    ⟨by decide, by decide, by decide, by decide⟩).2 (Or.inl (by decide))

end DnsSnippets
